import Mathlib

set_option maxHeartbeats 1000000

/-! # Verification of the newspaper layout / strike-column pipeline

Shallow embedding of the layout-reconstruction and cross-page span-extraction
engine of the econai-strikes repository:

* `newspaper_layout_processor.py` — column boundary detection, column/row
  assignment, bottom-edge correction (`Layout` namespace);
* `raw_strike_description_collector.py` — marker search, stop search and
  cross-page content collection (`Collector` namespace);
* `extract_newspaper_text.py` — per-page reading-order composition
  (`Extractor` namespace).

Coordinates are modelled as rationals (`Rat`); the Python code uses floats but
every claim under scrutiny only involves exact arithmetic (division by 3,
additions and comparisons), where the two agree.  JSON text-bearing fields are
modelled by `JVal` (absent / null / string), which is the distinction the
Python code observes via `in`, truthiness and `.strip()`.
-/

/-- A JSON field value as far as the pipeline's text extraction observes it:
the key may be absent, present but `null`, or a string. -/
inductive JVal where
  | absent
  | null
  | str (s : String)
deriving DecidableEq

/-- One detected layout element (one entry of a page's `shapes` list).
`tesseract_ocr_text` models `shape["tesseract_output"]["ocr_text"]`
(`absent` also covers a missing or falsy `tesseract_output` object).
`column_number` / `row_number` model the optional integer metadata fields;
`none` means the key is absent. -/
structure Shape where
  label : String
  points : List (Rat × Rat)
  tesseract_ocr_text : JVal
  text : JVal
  description : JVal
  content : JVal
  value : JVal
  column_number : Option Int
  row_number : Option Int
deriving DecidableEq

/-- One page record: its `shapes` list and its `imageWidth`. -/
structure Page where
  shapes : List Shape
  imageWidth : Rat
deriving DecidableEq

/-- A corpus in the collector's given total order.  `none` models a page whose
JSON file fails to load or parse (the Python code catches the exception and
continues with the next page). -/
def Corpus : Type := List (Option Page)

/-- Minimum of a list of rationals with a default for the empty list. -/
def rat_min_list (d : Rat) : List Rat → Rat
  | [] => d
  | a :: l => l.foldl min a

/-- Maximum of a list of rationals with a default for the empty list. -/
def rat_max_list (d : Rat) : List Rat → Rat
  | [] => d
  | a :: l => l.foldl max a

/-- `get_element_center_x` (both scripts): horizontal center of a shape's
bounding box, `0` when the polygon has fewer than two points. -/
def get_element_center_x (s : Shape) : Rat :=
  if s.points.length ≥ 2 then
    let xs := s.points.map Prod.fst
    (rat_min_list 0 xs + rat_max_list 0 xs) / 2
  else 0

/-- `get_element_bounds`: bounding box `(x1, y1, x2, y2)` of a shape,
`(0,0,0,0)` when the polygon has fewer than two points. -/
def get_element_bounds (s : Shape) : Rat × Rat × Rat × Rat :=
  if s.points.length ≥ 2 then
    let xs := s.points.map Prod.fst
    let ys := s.points.map Prod.snd
    (rat_min_list 0 xs, rat_min_list 0 ys, rat_max_list 0 xs, rat_max_list 0 ys)
  else (0, 0, 0, 0)

/-- Left edge `x1` of a shape's bounding box. -/
def left_x (s : Shape) : Rat := (get_element_bounds s).1

/-- Top edge `y1` of a shape's bounding box. -/
def top_y (s : Shape) : Rat := (get_element_bounds s).2.1

/-- Right edge `x2` of a shape's bounding box. -/
def right_x (s : Shape) : Rat := (get_element_bounds s).2.2.1

/-- Bottom edge `y2` of a shape's bounding box. -/
def bottom_y (s : Shape) : Rat := (get_element_bounds s).2.2.2

/-! ## String utilities

Python string methods (`strip`, `lower`, substring `in`) are modelled over the
character list of the string so that all definitions reduce structurally. -/

/-- Model of Python's `str.strip()`: remove leading and trailing whitespace. -/
def py_strip (s : String) : String :=
  String.mk (((s.data.dropWhile Char.isWhitespace).reverse.dropWhile Char.isWhitespace).reverse)

/-- A character-level model of Python's `str.lower()`, covering ASCII and the
accented letters of the Hungarian alphabet (the only ones this pipeline's
marker matching can meet). -/
def lower_hu (c : Char) : Char :=
  if 'A' ≤ c ∧ c ≤ 'Z' then Char.ofNat (c.toNat + 32)
  else if c = 'Á' then 'á' else if c = 'É' then 'é' else if c = 'Í' then 'í'
  else if c = 'Ó' then 'ó' else if c = 'Ö' then 'ö' else if c = 'Ő' then 'ő'
  else if c = 'Ú' then 'ú' else if c = 'Ü' then 'ü' else if c = 'Ű' then 'ű'
  else c

/-- Model of `str.lower()` on whole strings. -/
def py_lower (s : String) : String := String.mk (s.data.map lower_hu)

/-- `remove_accents` (collector): strip the combining marks produced by
Unicode NFD decomposition.  Modelled as folding each accented letter of the
Hungarian alphabet to its base letter. -/
def remove_accents (s : String) : String :=
  String.mk (s.data.map (fun c =>
    if c = 'á' then 'a' else if c = 'é' then 'e' else if c = 'í' then 'i'
    else if c = 'ó' then 'o' else if c = 'ö' then 'o' else if c = 'ő' then 'o'
    else if c = 'ú' then 'u' else if c = 'ü' then 'u' else if c = 'ű' then 'u'
    else if c = 'Á' then 'A' else if c = 'É' then 'E' else if c = 'Í' then 'I'
    else if c = 'Ó' then 'O' else if c = 'Ö' then 'O' else if c = 'Ő' then 'O'
    else if c = 'Ú' then 'U' else if c = 'Ü' then 'U' else if c = 'Ű' then 'U'
    else c))

/-- Does the character list `l` start with `pat`? -/
def chars_start_with : List Char → List Char → Bool
  | _, [] => true
  | [], _ :: _ => false
  | a :: l, b :: m => a == b && chars_start_with l m

/-- Does the character list `l` contain `pat` as a contiguous run?
Models Python's `pat in l`. -/
def chars_have_sub : List Char → List Char → Bool
  | [], pat => pat.isEmpty
  | a :: l, pat => chars_start_with (a :: l) pat || chars_have_sub l pat

/-- Model of Python's substring test `pat in hay`. -/
def str_has_sub (hay pat : String) : Bool := chars_have_sub hay.data pat.data

/-- Split a character list into its maximal whitespace-free runs. -/
def ws_words (acc : List Char) : List Char → List (List Char)
  | [] => if acc.isEmpty then [] else [acc.reverse]
  | c :: rest =>
    if c.isWhitespace then
      if acc.isEmpty then ws_words [] rest else acc.reverse :: ws_words [] rest
    else ws_words (c :: acc) rest

/-- Join words with single spaces. -/
def join_with_space : List (List Char) → List Char
  | [] => []
  | [w] => w
  | w :: ws => w ++ ' ' :: join_with_space ws

/-- `normalize_text_for_search` (collector): lowercase, strip accents and
collapse whitespace runs to single spaces, then strip (the effect of
`re.sub` with a whitespace-run pattern followed by `.strip()`). -/
def normalize_text_for_search (t : String) : String :=
  if t = "" then ""
  else
    let lowered := remove_accents (py_lower t)
    String.mk (join_with_space (ws_words [] lowered.data))

/-- `contains_toke_munka` (collector): the marker-match test.  True when the
normalized text contains a `tőke` variant and `munka` as substrings. -/
def contains_toke_munka (t : String) : Bool :=
  if t = "" then false
  else
    let normalized := normalize_text_for_search t
    let has_toke := str_has_sub normalized "tőke" || str_has_sub normalized "toke"
    let has_munka := str_has_sub normalized "munka"
    has_toke && has_munka

/-! ## Text extraction from a shape

Both scripts define an `extract_text_from_shape`; the collector's version is
total, the text-extraction script's version can raise an `AttributeError`
when the direct `text` field is present but `null` (it calls `.strip()` on it
without a truthiness guard).  The raising variant is modelled in `Except`. -/

/-- First non-empty (after strip) string among a list of JSON field values,
returned stripped; the guard models `shape[field] and str(shape[field]).strip()`. -/
def field_first_nonempty : List JVal → Option String
  | [] => none
  | JVal.str t :: rest =>
    if t ≠ "" ∧ py_strip t ≠ "" then some (py_strip t) else field_first_nonempty rest
  | _ :: rest => field_first_nonempty rest

namespace Collector

/-- `extract_text_from_shape` (raw_strike_description_collector.py, lines 76–90):
OCR text first, then the fields `text`, `description`, `content`, `value`;
every access is truthiness-guarded, so the function is total. -/
def extract_text_from_shape (s : Shape) : Option String :=
  match s.tesseract_ocr_text with
  | JVal.str t =>
    if t ≠ "" ∧ py_strip t ≠ "" then some (py_strip t)
    else field_first_nonempty [s.text, s.description, s.content, s.value]
  | _ => field_first_nonempty [s.text, s.description, s.content, s.value]

end Collector

namespace Extractor

/-- The tail of the text-extraction script's `extract_text_from_shape` after
the OCR branch: the direct `text` field is accessed as
`shape["text"].strip()` without a truthiness guard, so a present-but-null
`text` raises an `AttributeError` (`Except.error ()`); otherwise the fallback
fields `description`, `content`, `value` are tried with guards. -/
def direct_text_step (s : Shape) : Except Unit (Option String) :=
  match s.text with
  | JVal.null => Except.error ()
  | JVal.str t =>
    if py_strip t ≠ "" then Except.ok (some (py_strip t))
    else Except.ok (field_first_nonempty [s.description, s.content, s.value])
  | JVal.absent => Except.ok (field_first_nonempty [s.description, s.content, s.value])

/-- `extract_text_from_shape` (extract_newspaper_text.py, lines 64–84):
OCR text first, then `direct_text_step` for the remaining fields. -/
def extract_text_from_shape (s : Shape) : Except Unit (Option String) :=
  match s.tesseract_ocr_text with
  | JVal.str t =>
    if t ≠ "" ∧ py_strip t ≠ "" then Except.ok (some (py_strip t))
    else direct_text_step s
  | _ => direct_text_step s

end Extractor

/-- Specification-side description of text extraction: the first field value,
in precedence order, holding a string that is non-empty after stripping,
returned stripped. -/
def first_nonempty_text (l : List JVal) : Option String :=
  l.findSome? (fun v =>
    match v with
    | JVal.str t => if py_strip t ≠ "" then some (py_strip t) else none
    | _ => none)

/-! ## Sorting relations

Python's `list.sort` is a stable sort; a stable sort's output is uniquely
determined by the input order and the key comparison, so `List.insertionSort`
(which is stable for a reflexive key-based relation) is a faithful model. -/

/-- Ascending order on rational pairs viewed descending: `rat_pair_ge a b`
holds when `a` is lexicographically at least `b`; used for Python's
`gaps.sort(reverse=True)` on `(gap_size, gap_mid)` tuples. -/
def rat_pair_ge (a b : Rat × Rat) : Prop := b.1 < a.1 ∨ (a.1 = b.1 ∧ b.2 ≤ a.2)

instance : DecidableRel rat_pair_ge := fun a b => by unfold rat_pair_ge; infer_instance

instance : IsTotal (Rat × Rat) rat_pair_ge where
  total a b := by
    unfold rat_pair_ge
    rcases lt_trichotomy a.1 b.1 with h | h | h
    · exact Or.inr (Or.inl h)
    · rcases le_total a.2 b.2 with h2 | h2
      · exact Or.inr (Or.inr ⟨h.symm, h2⟩)
      · exact Or.inl (Or.inr ⟨h, h2⟩)
    · exact Or.inl (Or.inl h)

instance : IsTrans (Rat × Rat) rat_pair_ge where
  trans a b c hab hbc := by
    unfold rat_pair_ge at *
    rcases hab with h | ⟨h1, h2⟩ <;> rcases hbc with g | ⟨g1, g2⟩
    · exact Or.inl (lt_trans g h)
    · exact Or.inl (g1 ▸ h)
    · exact Or.inl (h1 ▸ g)
    · exact Or.inr ⟨h1.trans g1, g2.trans h2⟩

/-- Comparison of shapes by the top edge of their bounding box (the key of
`assign_row_numbers`' sort). -/
def shape_top_le (a b : Shape) : Prop := top_y a ≤ top_y b

instance : DecidableRel shape_top_le := fun a b => by unfold shape_top_le; infer_instance

instance : IsTotal Shape shape_top_le := ⟨fun a b => le_total (top_y a) (top_y b)⟩

instance : IsTrans Shape shape_top_le :=
  ⟨fun _ _ _ h g => le_trans (a := top_y _) h g⟩

/-- The same top-edge comparison on index-tagged shapes. -/
def entry_top_le (a b : Nat × Shape) : Prop := top_y a.2 ≤ top_y b.2

instance : DecidableRel entry_top_le := fun a b => by unfold entry_top_le; infer_instance

instance : IsTotal (Nat × Shape) entry_top_le := ⟨fun a b => le_total (top_y a.2) (top_y b.2)⟩

instance : IsTrans (Nat × Shape) entry_top_le :=
  ⟨fun _ _ _ h g => le_trans (a := top_y _) h g⟩

/-- Descending comparison of index-tagged shapes by bounding-box bottom edge
(the key of the bottommost-first sort in `correct_szoveg_coordinates`). -/
def bottom_desc (a b : Nat × Shape) : Prop := bottom_y b.2 ≤ bottom_y a.2

instance : DecidableRel bottom_desc := fun a b => by unfold bottom_desc; infer_instance

/-! ## Layout processor (`newspaper_layout_processor.py`) -/

namespace Layout

/-- Gaps between consecutive sorted centers: `(size, midpoint)` pairs. -/
def consec_gaps : List Rat → List (Rat × Rat)
  | a :: b :: rest => (b - a, (b + a) / 2) :: consec_gaps (b :: rest)
  | _ => []

/-- `detect_column_boundaries` (lines 69–108): two separator x-coordinates.
Candidates are `szoveg` / `hasabkozi_cim` shapes; with fewer than 3 of them
the page is split into equal thirds, otherwise the midpoints of the two
largest gaps between sorted candidate centers are returned in order. -/
def detect_column_boundaries (shapes : List Shape) (image_width : Rat) : Rat × Rat :=
  let single_col_elements :=
    shapes.filter (fun s => decide (s.label = "szoveg" ∨ s.label = "hasabkozi_cim"))
  if single_col_elements.isEmpty then (image_width / 3, 2 * image_width / 3)
  else
    let centers := List.insertionSort (· ≤ ·) (single_col_elements.map get_element_center_x)
    if centers.length < 3 then (image_width / 3, 2 * image_width / 3)
    else
      match List.insertionSort rat_pair_ge (consec_gaps centers) with
      | g0 :: g1 :: _ => (min g0.2 g1.2, max g0.2 g1.2)
      | _ => (image_width / 3, 2 * image_width / 3)

/-- `assign_column_number` (lines 111–118). -/
def assign_column_number (center_x boundary1 boundary2 : Rat) : Int :=
  if center_x < boundary1 then 1
  else if center_x < boundary2 then 2
  else 3

/-- The column assigned to a shape by `process_page_layout` (lines 240–274):
single-column labels band by center, full-width labels get 0, `hirdetes`
bands by width, unknown labels band by center. -/
def classify_column (image_width boundary1 boundary2 : Rat) (s : Shape) : Int :=
  if s.label = "szoveg" ∨ s.label = "hasabkozi_cim" then
    assign_column_number (get_element_center_x s) boundary1 boundary2
  else if s.label = "oldalfejlec" ∨ s.label = "szeles_cim" then 0
  else if s.label = "hirdetes" then
    let b := get_element_bounds s
    let center_x := (b.1 + b.2.2.1) / 2
    let width := b.2.2.1 - b.1
    if width > 3 / 2 * (image_width / 3) then 0
    else assign_column_number center_x boundary1 boundary2
  else assign_column_number (get_element_center_x s) boundary1 boundary2

/-- `assign_row_numbers` (lines 121–129) on one column's list: sort stably by
top edge and number `1, 2, 3, …` in that order. -/
def assign_row_numbers (column_shapes : List Shape) : List Shape :=
  (List.insertionSort shape_top_le column_shapes).enum.map
    (fun e => { e.2 with row_number := some (Int.ofNat e.1 + 1) })

/-- The row number a banded shape at position `i` receives from
`assign_row_numbers`: one plus its position in the stable top-edge sort of
its column's index-tagged shapes. -/
def column_rank (enumd : List (Nat × Shape)) (c : Int) (i : Nat) : Nat :=
  ((List.insertionSort entry_top_le
      (enumd.filter (fun e => decide (e.2.column_number = some c)))).map Prod.fst).indexOf i + 1

/-- The effect of `assign_row_numbers(shapes_by_column)` on the page's shape
list: every shape in a column `c ≠ 0` gets `row_number = column_rank`, shapes
with column 0 are untouched (they were never put into a column list). -/
def assign_rows_all (shapes : List Shape) : List Shape :=
  shapes.enum.map (fun e =>
    match e.2.column_number with
    | some c =>
      if c = 0 then e.2
      else { e.2 with row_number := some (Int.ofNat (column_rank shapes.enum c e.1)) }
    | none => e.2)

/-- `find_elements_below` (lines 132–151): indices of the shapes other than
`i` whose top edge lies strictly within `(bottom − tol, bottom + 3·tol)` of
shape `i`'s bottom edge and whose horizontal extent overlaps it.  The Python
code skips only the identical object (`other_shape is shape`), which is the
positional check `j ≠ i`. -/
def find_elements_below (shapes : List Shape) (i : Nat) (tolerance : Rat) : List Nat :=
  match shapes[i]? with
  | none => []
  | some s =>
    (shapes.enum.filter (fun e =>
      decide (e.1 ≠ i) &&
      decide (bottom_y s - tolerance < top_y e.2) &&
      decide (top_y e.2 < bottom_y s + tolerance * 3) &&
      !(decide (right_x e.2 < left_x s) || decide (left_x e.2 > right_x s)))).map Prod.fst

/-- The index-tagged `szoveg` shapes whose recomputed center falls in
column `c` (the grouping loop of `correct_szoveg_coordinates`). -/
def szoveg_in_column (shapes : List Shape) (boundary1 boundary2 : Rat) (c : Int) :
    List (Nat × Shape) :=
  shapes.enum.filter (fun e =>
    decide (e.2.label = "szoveg" ∧
      assign_column_number (get_element_center_x e.2) boundary1 boundary2 = c))

/-- Per column: the bottommost `szoveg` (head of the stable descending
bottom-edge sort) when nothing is below it, else no candidate. -/
def bottommost_candidate (shapes : List Shape) (boundary1 boundary2 : Rat) (c : Int) :
    Option Nat :=
  match List.insertionSort bottom_desc (szoveg_in_column shapes boundary1 boundary2 c) with
  | [] => none
  | e :: _ => if (find_elements_below shapes e.1 50).isEmpty then some e.1 else none

/-- The correction candidates of `correct_szoveg_coordinates` (lines 174–197):
per column 1..3, the bottommost `szoveg` with nothing below it. -/
def correction_candidates (shapes : List Shape) (image_width : Rat) : List Nat :=
  let b := detect_column_boundaries shapes image_width
  ([1, 2, 3] : List Int).filterMap (bottommost_candidate shapes b.1 b.2)

/-- The common baseline: the maximum bottom edge over all candidates. -/
def correction_target (shapes : List Shape) (image_width : Rat) : Rat :=
  rat_max_list 0 ((correction_candidates shapes image_width).filterMap
    (fun j => (shapes[j]?).map bottom_y))

/-- `correct_szoveg_coordinates` (lines 154–212): every candidate with at
least two points has its polygon replaced by
`[(x1, y1), (x2, target)]`; everything else is untouched. -/
def correct_szoveg_coordinates (shapes : List Shape) (image_width : Rat) : List Shape :=
  let cands := correction_candidates shapes image_width
  if cands.isEmpty then shapes
  else
    let target := correction_target shapes image_width
    shapes.enum.map (fun e =>
      if e.1 ∈ cands ∧ e.2.points.length ≥ 2 then
        { e.2 with points := [(left_x e.2, top_y e.2), (right_x e.2, target)] }
      else e.2)

/-- The boundaries `process_page_layout` detects for a page. -/
def page_boundaries (pg : Page) : Rat × Rat :=
  detect_column_boundaries pg.shapes pg.imageWidth

/-- The column `process_page_layout` assigns to a shape of a page. -/
def page_column (pg : Page) (s : Shape) : Int :=
  classify_column pg.imageWidth (page_boundaries pg).1 (page_boundaries pg).2 s

/-- The page's shapes with their `column_number` fields assigned. -/
def classified_shapes (pg : Page) : List Shape :=
  pg.shapes.map (fun s => { s with column_number := some (page_column pg s) })

/-- `process_page_layout` (lines 215–288): detect boundaries, assign column
numbers to every shape, assign row numbers within each column, then correct
the `szoveg` bottom edges. -/
def process_page_layout (pg : Page) : Page :=
  if pg.shapes.isEmpty then pg
  else
    { pg with
      shapes :=
        correct_szoveg_coordinates (assign_rows_all (classified_shapes pg)) pg.imageWidth }

end Layout

/-! ## Scan order shared by the collector and the text extractor -/

/-- The column number used as a sort key: `shape.get("column_number", 999)`. -/
def colD (s : Shape) : Int := s.column_number.getD 999

/-- The row number used as a sort key: `shape.get("row_number", 999)`. -/
def rowD (s : Shape) : Int := s.row_number.getD 999

/-- Lexicographic comparison of shapes by `(column_number, row_number)` keys,
the sort key `(s.get("column_number", 999), s.get("row_number", 999))`. -/
def pos_le (a b : Shape) : Prop :=
  colD a < colD b ∨ (colD a = colD b ∧ rowD a ≤ rowD b)

instance : DecidableRel pos_le := fun a b => by unfold pos_le; infer_instance

instance : IsTotal Shape pos_le where
  total a b := by
    unfold pos_le
    rcases lt_trichotomy (colD a) (colD b) with h | h | h
    · exact Or.inl (Or.inl h)
    · rcases le_total (rowD a) (rowD b) with h2 | h2
      · exact Or.inl (Or.inr ⟨h, h2⟩)
      · exact Or.inr (Or.inr ⟨h.symm, h2⟩)
    · exact Or.inr (Or.inl h)

instance : IsTrans Shape pos_le where
  trans a b c hab hbc := by
    unfold pos_le at *
    rcases hab with h | ⟨h1, h2⟩ <;> rcases hbc with g | ⟨g1, g2⟩
    · exact Or.inl (lt_trans h g)
    · exact Or.inl (g1 ▸ h)
    · exact Or.inl (h1 ▸ g)
    · exact Or.inr ⟨h1.trans g1, h2.trans g2⟩

/-- The stable `(column, row)` sort both corpus-level scripts apply to a
page's filtered shapes. -/
def sort_by_pos (l : List Shape) : List Shape := List.insertionSort pos_le l

/-! ## Cross-page span collector (`raw_strike_description_collector.py`) -/

namespace Collector

/-- `find_toke_munka_subtitle` (lines 110–118): the first `hasabkozi_cim`
whose extractable text passes the marker-match test. -/
def find_toke_munka_subtitle (shapes : List Shape) : Option Shape :=
  shapes.find? (fun s =>
    decide (s.label = "hasabkozi_cim") &&
    (match extract_text_from_shape s with
     | some t => contains_toke_munka t
     | none => false))

/-- `find_szeles_cim` (lines 121–129): text of the first `szeles_cim` that
has extractable text. -/
def find_szeles_cim (shapes : List Shape) : Option String :=
  shapes.findSome? (fun s =>
    if s.label = "szeles_cim" then extract_text_from_shape s else none)

/-- The shapes scanned by `get_next_stopping_point` on one page: labels
`hasabkozi_cim`, `szeles_cim`, `szoveg` with both `column_number` and
`row_number` present, sorted by `(column, row)`. -/
def stop_scan_shapes (shapes : List Shape) : List Shape :=
  sort_by_pos (shapes.filter (fun s =>
    decide ((s.label = "hasabkozi_cim" ∨ s.label = "szeles_cim" ∨ s.label = "szoveg") ∧
      s.column_number.isSome ∧ s.row_number.isSome)))

/-- The shapes scanned by the collection pass on one page: labels
`hasabkozi_cim`, `szoveg` with both metadata fields, sorted by
`(column, row)`. -/
def collect_scan_shapes (shapes : List Shape) : List Shape :=
  sort_by_pos (shapes.filter (fun s =>
    decide ((s.label = "hasabkozi_cim" ∨ s.label = "szoveg") ∧
      s.column_number.isSome ∧ s.row_number.isSome)))

/-- Negation of the per-element skip on the starting page:
`elem_col < current_column or (elem_col == current_column and
elem_row <= current_row)` means *not yet past* the start. -/
def after_start (c r : Int) (s : Shape) : Bool :=
  !(decide (colD s < c) || (decide (colD s = c) && decide (rowD s ≤ r)))

/-- The stop test of `get_next_stopping_point` (lines 169–177): a
`szeles_cim`, or a `hasabkozi_cim` whose extractable text exists and fails
the marker-match test.  A `hasabkozi_cim` without extractable text is *not*
a stop element (`if text and not contains_toke_munka(text)`). -/
def is_stop_element (s : Shape) : Bool :=
  decide (s.label = "szeles_cim") ||
  (decide (s.label = "hasabkozi_cim") &&
    (match extract_text_from_shape s with
     | some t => !contains_toke_munka t
     | none => false))

/-- The loop of `get_next_stopping_point` (lines 132–183) from page index
`i` onward; `cur` is the starting page index whose shapes are filtered
against the starting `(c, r)` position.  Unloadable pages are skipped. -/
def stopping_point_go (cur : Nat) (c r : Int) : Nat → List (Option Page) →
    Option (Nat × Int × Int)
  | _, [] => none
  | i, opg :: rest =>
    match opg with
    | none => stopping_point_go cur c r (i + 1) rest
    | some pg =>
      let es := stop_scan_shapes pg.shapes
      let es2 := if i = cur then es.filter (after_start c r) else es
      match es2.find? is_stop_element with
      | some e => some (i, colD e, rowD e)
      | none => stopping_point_go cur c r (i + 1) rest

/-- `get_next_stopping_point`: first stop element strictly after position
`(cur, c, r)`, or `none` when the corpus is exhausted. -/
def get_next_stopping_point (cur : Nat) (c r : Int) (corpus : List (Option Page)) :
    Option (Nat × Int × Int) :=
  stopping_point_go cur c r cur (corpus.drop cur)

/-- A collected fragment: `[SUBTITLE]`-tagged for `hasabkozi_cim`, plain for
`szoveg` (lines 245–250). -/
def tagged_text (s : Shape) : Option String :=
  (extract_text_from_shape s).map
    (fun t => if s.label = "hasabkozi_cim" then "[SUBTITLE] " ++ t else t)

/-- `True` when the scanned element sits exactly at the recorded stop
position (the collection pass's break test, lines 239–242). -/
def stop_matches (ostop : Option (Nat × Int × Int)) (i : Nat) (s : Shape) : Bool :=
  match ostop with
  | some st => decide (i = st.1) && decide (colD s = st.2.1) && decide (rowD s = st.2.2)
  | none => false

/-- Inner loop of the collection pass over one page's scan list: skip
elements not after the start (on the start page), break at the stop
position, collect tagged extractable text otherwise. -/
def collect_page_go (startIdx : Nat) (c r : Int) (ostop : Option (Nat × Int × Int))
    (i : Nat) : List Shape → List String
  | [] => []
  | s :: rest =>
    if decide (i = startIdx) && !(after_start c r s) then
      collect_page_go startIdx c r ostop i rest
    else if stop_matches ostop i s then []
    else
      match tagged_text s with
      | some f => f :: collect_page_go startIdx c r ostop i rest
      | none => collect_page_go startIdx c r ostop i rest

/-- The outer break of the collection pass: stop after the page holding the
stop position (`file_idx >= stop_file`). -/
def should_break (ostop : Option (Nat × Int × Int)) (i : Nat) : Bool :=
  match ostop with
  | some st => decide (st.1 ≤ i)
  | none => false

/-- Outer loop of the collection pass (lines 207–263) from page `i` onward.
An unloadable page is skipped by the exception handler, which also skips
the outer break test for that page. -/
def collect_files_go (startIdx : Nat) (c r : Int) (ostop : Option (Nat × Int × Int)) :
    Nat → List (Option Page) → List String
  | _, [] => []
  | i, opg :: rest =>
    match opg with
    | none => collect_files_go startIdx c r ostop (i + 1) rest
    | some pg =>
      let frags := collect_page_go startIdx c r ostop i (collect_scan_shapes pg.shapes)
      if should_break ostop i then frags
      else frags ++ collect_files_go startIdx c r ostop (i + 1) rest

/-- `collect_column_content` (lines 186–265).  When the start marker lacks
`column_number` or `row_number`, every page's element loop raises a
`TypeError` that the per-page handler swallows, so the collected content is
empty; that cascade is modelled by returning `""` directly. -/
def collect_column_content (startIdx : Nat) (startShape : Shape)
    (corpus : List (Option Page)) : String :=
  match startShape.column_number, startShape.row_number with
  | some c, some r =>
    let ostop := get_next_stopping_point startIdx c r corpus
    String.intercalate "\n\n" (collect_files_go startIdx c r ostop startIdx (corpus.drop startIdx))
  | _, _ => ""

/-- One iteration of `process_files` (lines 276–341): a page yields a span
exactly when it loads, has shapes, contains a marker subtitle, and the
collected content is non-blank. -/
def process_files_go (corpus : List (Option Page)) : Nat → List (Option Page) → Nat
  | _, [] => 0
  | i, opg :: rest =>
    (match opg with
     | none => 0
     | some pg =>
       if pg.shapes.isEmpty then 0
       else
         match find_toke_munka_subtitle pg.shapes with
         | none => 0
         | some marker =>
           if py_strip (collect_column_content i marker corpus) = "" then 0 else 1) +
    process_files_go corpus (i + 1) rest

/-- `process_files`: number of spans successfully extracted from the corpus. -/
def process_files (corpus : List (Option Page)) : Nat :=
  process_files_go corpus 0 corpus

/-- Specification-side per-page success predicate: pure function of the
corpus and a page index. -/
def page_success (corpus : List (Option Page)) (i : Nat) : Bool :=
  match corpus[i]? with
  | some (some pg) =>
    !pg.shapes.isEmpty &&
    (match find_toke_munka_subtitle pg.shapes with
     | none => false
     | some marker => !(decide (py_strip (collect_column_content i marker corpus) = "")))
  | _ => false

/-- Replace every unloadable page by a loaded page without shapes. -/
def mask_failures (corpus : List (Option Page)) : List (Option Page) :=
  corpus.map (fun opg => some (opg.getD { shapes := [], imageWidth := 3000 }))

/-! ### Specification-side scan-order formulations -/

/-- Is position `(i, scan element s)` strictly after the starting position
`(startIdx, c, r)` in corpus order (page index first, then column, then
row)? -/
def strictly_after_start (startIdx : Nat) (c r : Int) (i : Nat) (s : Shape) : Bool :=
  decide (startIdx < i) || (decide (i = startIdx) && after_start c r s)

/-- Is position `(i, scan element s)` strictly before the recorded stop
position (page index first, then column, then row)?  `none` means no stop
was recorded, so everything to corpus end qualifies. -/
def strictly_before_stop (ostop : Option (Nat × Int × Int)) (i : Nat) (s : Shape) : Bool :=
  match ostop with
  | none => true
  | some st =>
    decide (i < st.1) ||
    (decide (i = st.1) &&
      (decide (colD s < st.2.1) || (decide (colD s = st.2.1) && decide (rowD s < st.2.2))))

/-- The contribution of one page (at index `i`) to the corpus scan:
nothing for an unloadable page, the index-tagged stop-scan shapes
otherwise. -/
def stop_scan_entries (i : Nat) (opg : Option Page) : List (Nat × Shape) :=
  match opg with
  | none => []
  | some pg => (stop_scan_shapes pg.shapes).map (fun s => (i, s))

/-- The whole corpus's stop-search scan in canonical order: pages by
ascending index (unloadable pages contribute nothing), within a page the
stop-scan shapes by `(column, row)`. -/
def corpus_stop_scan (corpus : List (Option Page)) : List (Nat × Shape) :=
  corpus.enum.flatMap (fun e => stop_scan_entries e.1 e.2)

/-- The specification-side stop search over the pages from index `n` on:
first stop element of the filtered scan. -/
def spec_stop_find (startIdx : Nat) (c r : Int) (n : Nat) (pages : List (Option Page)) :
    Option (Nat × Int × Int) :=
  ((((pages.enumFrom n).flatMap (fun e => stop_scan_entries e.1 e.2)).filter
      (fun e => strictly_after_start startIdx c r e.1 e.2)).find?
    (fun e => is_stop_element e.2)).map (fun e => (e.1, colD e.2, rowD e.2))

/-- Specification-side stop search: position of the first stop element in
the canonical scan strictly after the start. -/
def spec_stopping_point (startIdx : Nat) (c r : Int) (corpus : List (Option Page)) :
    Option (Nat × Int × Int) :=
  (((corpus_stop_scan corpus).filter (fun e => strictly_after_start startIdx c r e.1 e.2)).find?
      (fun e => is_stop_element e.2)).map (fun e => (e.1, colD e.2, rowD e.2))

/-- The stop test as claim C2 words it: a `szeles_cim`, or a `hasabkozi_cim`
that does *not* satisfy the marker-match test (which a subtitle without
extractable text does not). -/
def is_stop_element_claim (s : Shape) : Bool :=
  decide (s.label = "szeles_cim") ||
  (decide (s.label = "hasabkozi_cim") &&
    !(match extract_text_from_shape s with
      | some t => contains_toke_munka t
      | none => false))

/-- Stop search as claim C2 words it. -/
def spec_stopping_point_claim (startIdx : Nat) (c r : Int) (corpus : List (Option Page)) :
    Option (Nat × Int × Int) :=
  (((corpus_stop_scan corpus).filter (fun e => strictly_after_start startIdx c r e.1 e.2)).find?
      (fun e => is_stop_element_claim e.2)).map (fun e => (e.1, colD e.2, rowD e.2))

/-- Specification-side collection: walking pages from index `i`, concatenate
the tagged extractable texts of the collection-scan shapes strictly after
the start and strictly before the stop. -/
def spec_collect_frags (startIdx : Nat) (c r : Int) (ostop : Option (Nat × Int × Int)) :
    Nat → List (Option Page) → List String
  | _, [] => []
  | i, none :: rest => spec_collect_frags startIdx c r ostop (i + 1) rest
  | i, some pg :: rest =>
    ((collect_scan_shapes pg.shapes).filter (fun s =>
        strictly_after_start startIdx c r i s && strictly_before_stop ostop i s)).filterMap
      tagged_text ++ spec_collect_frags startIdx c r ostop (i + 1) rest

/-- Specification-side collected content over the whole corpus. -/
def spec_collected (startIdx : Nat) (c r : Int) (ostop : Option (Nat × Int × Int))
    (corpus : List (Option Page)) : List String :=
  spec_collect_frags startIdx c r ostop 0 corpus

end Collector

/-! ## Reading-order composer (`extract_newspaper_text.py`) -/

namespace Extractor

/-- The value `extract_text_from_shape` returns when it does not raise. -/
def extract_value (s : Shape) : Option String :=
  match extract_text_from_shape s with
  | Except.ok v => v
  | Except.error _ => none

/-- Does `extract_text_from_shape` raise on this shape? -/
def extract_crashes (s : Shape) : Bool :=
  match extract_text_from_shape s with
  | Except.ok _ => false
  | Except.error _ => true

/-- The sort key of `szeles_cim` elements:
`min(p[1] for p in s.get("points", [[0, 0]]))` (raises on an empty point
list, which the caller's guard excludes). -/
def title_sort_y (s : Shape) : Rat :=
  match s.points.map Prod.snd with
  | [] => 0
  | a :: l => l.foldl min a

/-- Comparison of `szeles_cim` shapes by their minimal point `y`. -/
def title_y_le (a b : Shape) : Prop := title_sort_y a ≤ title_sort_y b

instance : DecidableRel title_y_le := fun a b => by unfold title_y_le; infer_instance

instance : IsTotal Shape title_y_le := ⟨fun a b => le_total (title_sort_y a) (title_sort_y b)⟩

instance : IsTrans Shape title_y_le :=
  ⟨fun _ _ _ h g => le_trans (a := title_sort_y _) h g⟩

/-- The `szeles_cim` shapes of a page. -/
def title_shapes (pg : Page) : List Shape :=
  pg.shapes.filter (fun s => decide (s.label = "szeles_cim"))

/-- The banded shapes of a page: `szoveg` / `hasabkozi_cim` with both
`column_number` and `row_number` present. -/
def column_shapes (pg : Page) : List Shape :=
  pg.shapes.filter (fun s =>
    decide ((s.label = "szoveg" ∨ s.label = "hasabkozi_cim") ∧
      s.column_number.isSome ∧ s.row_number.isSome))

/-- Title fragments: tagged texts of the `szeles_cim` shapes that have
extractable text. -/
def title_parts (l : List Shape) : List String :=
  l.filterMap (fun s => (extract_value s).map (fun t => "[TITLE] " ++ t))

/-- The column-break marker emitted before a shape in band `col` when the
previous banded shape (if any) sat in band `prev`. -/
def marker_frag (prev : Option Int) (col : Int) : List String :=
  match prev with
  | none => ["[COLUMN " ++ toString col ++ "]"]
  | some cc => if col ≠ cc then ["\n[COLUMN " ++ toString col ++ "]\n"] else []

/-- The text fragment a banded shape contributes (`[SUBTITLE]`-tagged for
`hasabkozi_cim`). -/
def text_frag (s : Shape) : List String :=
  match extract_value s with
  | some t => [if s.label = "hasabkozi_cim" then "[SUBTITLE] " ++ t else t]
  | none => []

/-- The column loop of `process_json_file` (lines 132–153): threads the
last-seen column number; every scanned shape first emits a column marker on
a column change, then its text fragment if it has one. -/
def column_parts (cur : Option Int) : List Shape → List String
  | [] => []
  | s :: rest => marker_frag cur (colD s) ++ text_frag s ++ column_parts (some (colD s)) rest

/-- Specification-side reformulation of the column loop: each shape,
paired with its predecessor's column, contributes its marker (if the column
changed) and its text fragment (if it has text). -/
def spec_column_parts (cur : Option Int) (l : List Shape) : List String :=
  (l.zip (cur :: l.map (fun s => some (colD s)))).flatMap
    (fun e => marker_frag e.2 (colD e.1) ++ text_frag e.1)

/-- `process_json_file` (lines 87–165): `""` for a shapeless page or when
any attempted step raises (sorting a `szeles_cim` with an empty point list,
or extracting from a shape with a null `text` field); otherwise the joined
title fragments followed by the column fragments. -/
def process_json_file (pg : Page) : String :=
  if pg.shapes.isEmpty then ""
  else if (title_shapes pg).any (fun s => s.points.isEmpty) then ""
  else if (title_shapes pg).any extract_crashes || (column_shapes pg).any extract_crashes then ""
  else
    let titles := List.insertionSort title_y_le (title_shapes pg)
    let cols := sort_by_pos (column_shapes pg)
    String.intercalate "\n\n" (title_parts titles ++ column_parts none cols)

end Extractor

/-! ## Concrete fixtures used by witnesses and counterexamples -/

/-- A shape with the given label, points and banding metadata, all
text-bearing fields absent. -/
def mkShape (label : String) (points : List (Rat × Rat)) (col row : Option Int) : Shape :=
  { label := label, points := points, tesseract_ocr_text := JVal.absent,
    text := JVal.absent, description := JVal.absent, content := JVal.absent,
    value := JVal.absent, column_number := col, row_number := row }

/-- `mkShape` with a direct `text` field value. -/
def mkTextShape (label : String) (points : List (Rat × Rat)) (col row : Option Int)
    (v : JVal) : Shape :=
  { mkShape label points col row with text := v }

/-- A two-column page for exercising bottom-edge correction: a degenerate
one-point `szoveg` (column 1) and a regular `szoveg` (column 2). -/
def c10_shapes : List Shape :=
  [mkShape "szoveg" [(5, 5)] none none,
   mkShape "szoveg" [(400, 0), (500, 100)] none none]

/-- A page holding a single `szeles_cim` that arrives with a stale
`row_number`. -/
def c3_page : Page :=
  { shapes := [mkShape "szeles_cim" [(0, 0), (10, 10)] none (some 5)], imageWidth := 900 }

/-- A page with two column-1 `szoveg` shapes. -/
def c3w_page : Page :=
  { shapes := [mkShape "szoveg" [(0, 0), (10, 10)] none none,
               mkShape "szoveg" [(0, 20), (10, 30)] none none], imageWidth := 900 }

/-- A page whose only banded shape has no extractable text. -/
def c7_page : Page :=
  { shapes := [mkShape "szoveg" [(0, 0), (10, 10)] (some 1) (some 1)], imageWidth := 900 }

/-- A page with a marker subtitle at `(1, 1)` followed by a
`hasabkozi_cim` at `(1, 2)` with no extractable text. -/
def c2_page : Page where
  shapes :=
    [mkTextShape "hasabkozi_cim" [(0, 0), (10, 10)] (some 1) (some 1)
      (JVal.str "TOKE ES MUNKA"),
     mkShape "hasabkozi_cim" [(0, 20), (10, 30)] (some 1) (some 2)]
  imageWidth := 900

/-- The one-page corpus holding `c2_page`. -/
def c2_corpus : List (Option Page) := [some c2_page]

/-- The marker subtitle at `(1, 1)` shared by the C1 fixture pages. -/
def c1_marker : Shape :=
  mkTextShape "hasabkozi_cim" [(0, 0), (10, 10)] (some 1) (some 1)
    (JVal.str "TOKE ES MUNKA")

/-- A page whose stop element is a `szeles_cim`: marker at `(1, 1)`, a
`szeles_cim` carrying (stale) column/row metadata at `(1, 2)`, and a
`szoveg` with text at `(1, 3)`. -/
def c1_page : Page where
  shapes :=
    [c1_marker,
     mkTextShape "szeles_cim" [(0, 20), (10, 30)] (some 1) (some 2) (JVal.str "UJSAG"),
     mkTextShape "szoveg" [(0, 40), (10, 50)] (some 1) (some 3) (JVal.str "X")]
  imageWidth := 900

/-- The one-page corpus holding `c1_page`. -/
def c1_corpus : List (Option Page) := [some c1_page]

/-- The non-matching `hasabkozi_cim` at `(1, 3)` that stops the C1 witness
scan; it is part of the collection scan as well. -/
def c1w_stop : Shape :=
  mkTextShape "hasabkozi_cim" [(0, 40), (10, 50)] (some 1) (some 3) (JVal.str "MAS CIM")

/-- A page whose stop element is a non-matching `hasabkozi_cim`: marker at
`(1, 1)`, a `szoveg` at `(1, 2)`, the stop subtitle at `(1, 3)`, and a
`szoveg` past the stop at `(1, 4)`. -/
def c1w_page : Page where
  shapes :=
    [c1_marker,
     mkTextShape "szoveg" [(0, 20), (10, 30)] (some 1) (some 2) (JVal.str "A"),
     c1w_stop,
     mkTextShape "szoveg" [(0, 60), (10, 70)] (some 1) (some 4) (JVal.str "B")]
  imageWidth := 900

/-- The one-page corpus holding `c1w_page`. -/
def c1w_corpus : List (Option Page) := [some c1w_page]

/-! # Theorems -/

/-! ## C4: boundary-detection fallback -/

/-- **C4.** For every page whose single-column boundary candidates
(`szoveg` / `hasabkozi_cim` shapes) number fewer than 3, column boundary
detection returns exactly `(image_width / 3, 2 * image_width / 3)`. -/
theorem detect_column_boundaries_fallback (shapes : List Shape) (image_width : Rat)
    (h : (shapes.filter
        (fun s => decide (s.label = "szoveg" ∨ s.label = "hasabkozi_cim"))).length < 3) :
    Layout.detect_column_boundaries shapes image_width =
      (image_width / 3, 2 * image_width / 3) := by
  unfold Layout.detect_column_boundaries
  dsimp only
  split
  · rfl
  · split
    · rfl
    · next h2 =>
      exfalso
      apply h2
      rw [List.length_insertionSort, List.length_map]
      exact h

/-- **C4 witness.** A single-candidate 900-wide page: boundaries are exactly
`(300, 600)`. -/
theorem detect_column_boundaries_fallback_witness :
    (([{ label := "szoveg", points := [(0, 0), (10, 10)], tesseract_ocr_text := JVal.absent,
          text := JVal.absent, description := JVal.absent, content := JVal.absent,
          value := JVal.absent, column_number := none, row_number := none }] :
        List Shape).filter
        (fun s => decide (s.label = "szoveg" ∨ s.label = "hasabkozi_cim"))).length < 3 ∧
    Layout.detect_column_boundaries
      [{ label := "szoveg", points := [(0, 0), (10, 10)], tesseract_ocr_text := JVal.absent,
          text := JVal.absent, description := JVal.absent, content := JVal.absent,
          value := JVal.absent, column_number := none, row_number := none }] 900 =
      (300, 600) := by
  refine ⟨by decide, ?_⟩
  rw [detect_column_boundaries_fallback _ _ (by decide)]
  norm_num

/-! ## C8: text extraction -/

/-- `py_strip` of the empty string is empty, so a non-blank strip forces a
non-empty string. -/
theorem ne_empty_of_strip_ne_empty {t : String} (h : py_strip t ≠ "") : t ≠ "" := by
  intro he
  subst he
  exact h rfl

/-- The truthiness-guarded field loop returns the first field holding a
string that is non-empty after stripping. -/
theorem field_first_nonempty_eq (l : List JVal) :
    field_first_nonempty l = first_nonempty_text l := by
  induction l with
  | nil => rfl
  | cons v rest ih =>
    cases v with
    | absent => simpa [field_first_nonempty, first_nonempty_text] using ih
    | null => simpa [field_first_nonempty, first_nonempty_text] using ih
    | str t =>
      by_cases h : py_strip t ≠ ""
      · have ht : t ≠ "" := ne_empty_of_strip_ne_empty h
        simp [field_first_nonempty, first_nonempty_text, h, ht]
      · simp only [ne_eq, not_not] at h
        simpa [field_first_nonempty, first_nonempty_text, h] using ih

/-- **C8 (amended).** The collector's `extract_text_from_shape` is total and
returns the first non-empty text among `ocr_text`, `text`, `description`,
`content`, `value` (stripped), `none` when all are absent or blank; the
composer's variant agrees and never raises **provided** the direct `text`
field is not present-but-null (on a null `text` it raises, see the
counterexample). -/
theorem extract_text_first_nonempty (s : Shape) :
    Collector.extract_text_from_shape s =
      first_nonempty_text
        [s.tesseract_ocr_text, s.text, s.description, s.content, s.value] ∧
    (s.text ≠ JVal.null →
      Extractor.extract_text_from_shape s =
        Except.ok (first_nonempty_text
          [s.tesseract_ocr_text, s.text, s.description, s.content, s.value])) := by
  constructor
  · cases hocr : s.tesseract_ocr_text with
    | str t =>
      by_cases h : py_strip t ≠ ""
      · have ht : t ≠ "" := ne_empty_of_strip_ne_empty h
        simp [Collector.extract_text_from_shape, first_nonempty_text, hocr, h, ht]
      · simp only [ne_eq, not_not] at h
        simp [Collector.extract_text_from_shape, first_nonempty_text, hocr, h,
          field_first_nonempty_eq]
    | absent =>
      simp [Collector.extract_text_from_shape, first_nonempty_text, hocr,
        field_first_nonempty_eq]
    | null =>
      simp [Collector.extract_text_from_shape, first_nonempty_text, hocr,
        field_first_nonempty_eq]
  · intro hnull
    have hstep : Extractor.direct_text_step s =
        Except.ok (first_nonempty_text [s.text, s.description, s.content, s.value]) := by
      cases htext : s.text with
      | null => exact absurd htext hnull
      | absent =>
        simp [Extractor.direct_text_step, first_nonempty_text, htext,
          field_first_nonempty_eq]
      | str t =>
        by_cases h : py_strip t ≠ ""
        · simp [Extractor.direct_text_step, first_nonempty_text, htext, h]
        · simp only [ne_eq, not_not] at h
          simp [Extractor.direct_text_step, first_nonempty_text, htext, h,
            field_first_nonempty_eq]
    cases hocr : s.tesseract_ocr_text with
    | str t =>
      by_cases h : py_strip t ≠ ""
      · have ht : t ≠ "" := ne_empty_of_strip_ne_empty h
        simp [Extractor.extract_text_from_shape, first_nonempty_text, hocr, h, ht]
      · simp only [ne_eq, not_not] at h
        simp [Extractor.extract_text_from_shape, first_nonempty_text, hocr, h, hstep]
    | absent => simp [Extractor.extract_text_from_shape, first_nonempty_text, hocr, hstep]
    | null => simp [Extractor.extract_text_from_shape, first_nonempty_text, hocr, hstep]

/-- **C8 counterexample.** On a shape whose direct `text` field is present
but null, the composer's `extract_text_from_shape` raises (models the
`AttributeError` from `None.strip()`), so text extraction is not a total
function on every shape record as the claim states. -/
theorem extract_text_crashes_on_null_text :
    Extractor.extract_text_from_shape (mkTextShape "szoveg" [] none none JVal.null) =
      Except.error () := by rfl

/-- **C8 witness.** Applying the amended theorem at a concrete shape with a
stripped direct text. -/
theorem extract_text_first_nonempty_witness :
    (mkTextShape "szoveg" [] none none (JVal.str " hi ")).text ≠ JVal.null ∧
    Extractor.extract_text_from_shape (mkTextShape "szoveg" [] none none (JVal.str " hi ")) =
      Except.ok (some "hi") := by
  refine ⟨by decide, ?_⟩
  rw [(extract_text_first_nonempty (mkTextShape "szoveg" [] none none (JVal.str " hi "))).2
    (by decide)]
  have hv : first_nonempty_text
      [(mkTextShape "szoveg" [] none none (JVal.str " hi ")).tesseract_ocr_text,
        (mkTextShape "szoveg" [] none none (JVal.str " hi ")).text,
        (mkTextShape "szoveg" [] none none (JVal.str " hi ")).description,
        (mkTextShape "szoveg" [] none none (JVal.str " hi ")).content,
        (mkTextShape "szoveg" [] none none (JVal.str " hi ")).value] = some "hi" := by decide
  rw [hv]

/-! ## C6: the "below" test of bottom-edge correction -/

/-- **C6 (amended).** A shape `j` counts as "below" candidate `i` iff `j` is
a *different* position on the page whose top edge lies strictly within the
**open** interval `(bottom − tol, bottom + 3·tol)` — not the closed interval
of the claim — and whose horizontal extent overlaps the candidate's; and a
column's bottommost `szoveg` becomes a correction candidate exactly when
nothing counts as below it. -/
theorem find_elements_below_spec (shapes : List Shape) (i j : Nat) (tol : Rat) :
    (j ∈ Layout.find_elements_below shapes i tol ↔
      ∃ s o, shapes[i]? = some s ∧ shapes[j]? = some o ∧ j ≠ i ∧
        bottom_y s - tol < top_y o ∧ top_y o < bottom_y s + tol * 3 ∧
        ¬(right_x o < left_x s ∨ left_x o > right_x s)) ∧
    (∀ b1 b2 c, Layout.bottommost_candidate shapes b1 b2 c =
      (List.insertionSort bottom_desc (Layout.szoveg_in_column shapes b1 b2 c)).head?.bind
        (fun e => if Layout.find_elements_below shapes e.1 50 = [] then some e.1 else none)) := by
  constructor
  · unfold Layout.find_elements_below
    cases hi : shapes[i]? with
    | none => simp [hi]
    | some s =>
      simp only [List.mem_map, List.mem_filter, Bool.and_eq_true, decide_eq_true_eq,
        Bool.not_eq_true', Bool.or_eq_false_iff, decide_eq_false_iff_not, and_assoc]
      constructor
      · rintro ⟨⟨jj, o⟩, hmem, hne, h1, h2, h3, h4, rfl⟩
        have ho : shapes[jj]? = some o := (List.mk_mem_enum_iff_getElem? (l := shapes)).1 hmem
        exact ⟨s, o, rfl, ho, hne, h1, h2, fun hor => hor.elim h3 h4⟩
      · rintro ⟨s2, o, hs2, ho, hne, h1, h2, h34⟩
        injection hs2 with hs2e
        subst hs2e
        refine ⟨(j, o), ?_, hne, h1, h2, fun h => h34 (Or.inl h), fun h => h34 (Or.inr h), rfl⟩
        exact (List.mk_mem_enum_iff_getElem? (l := shapes)).2 ho
  · intro b1 b2 c
    unfold Layout.bottommost_candidate
    cases hsort : List.insertionSort bottom_desc (Layout.szoveg_in_column shapes b1 b2 c) with
    | nil => rfl
    | cons e rest =>
      simp [List.head?, List.isEmpty_iff]

/-- **C6 counterexample.** A shape whose top edge sits exactly at
`bottom − tol` (the closed interval's lower endpoint) with full horizontal
overlap is *not* counted as below: the code uses strict inequalities, so the
claim's closed interval `[bottom − tol, bottom + 3·tol]` is wrong at the
endpoints. -/
theorem find_elements_below_boundary_counterexample :
    top_y (mkShape "szoveg" [(0, 50), (100, 150)] none none) =
      bottom_y (mkShape "szoveg" [(0, 0), (100, 100)] none none) - 50 ∧
    ¬(right_x (mkShape "szoveg" [(0, 50), (100, 150)] none none) <
        left_x (mkShape "szoveg" [(0, 0), (100, 100)] none none) ∨
      left_x (mkShape "szoveg" [(0, 50), (100, 150)] none none) >
        right_x (mkShape "szoveg" [(0, 0), (100, 100)] none none)) ∧
    Layout.find_elements_below
      [mkShape "szoveg" [(0, 0), (100, 100)] none none,
       mkShape "szoveg" [(0, 50), (100, 150)] none none] 0 50 = [] := by
  refine ⟨?_, ?_, ?_⟩
  · norm_num [top_y, bottom_y, get_element_bounds, mkShape, rat_min_list, rat_max_list]
  · norm_num [left_x, right_x, get_element_bounds, mkShape, rat_min_list, rat_max_list]
  · norm_num [Layout.find_elements_below, mkShape, top_y, bottom_y, left_x, right_x,
      get_element_bounds, rat_min_list, rat_max_list, List.enum, List.enumFrom, List.filter]

/-! ## C5: row assignment -/

/-- A shape with its `row_number` removed (for comparing shapes modulo the
row assignment). -/
def erase_row (s : Shape) : Shape := { s with row_number := none }

/-- Inserting a shape with top edge `k` into any list places it before every
other element with top edge `k` already there. -/
theorem orderedInsert_filter_of_key_eq (a : Shape) (k : Rat) (ha : top_y a = k) :
    ∀ l : List Shape,
      (List.orderedInsert shape_top_le a l).filter (fun s => decide (top_y s = k)) =
        a :: l.filter (fun s => decide (top_y s = k))
  | [] => by simp [ha]
  | b :: l => by
    by_cases hr : shape_top_le a b
    · rw [List.orderedInsert_of_le _ _ hr]
      simp [ha]
    · have hb : top_y b ≠ k := by
        have hlt : top_y b < top_y a := lt_of_not_le hr
        rw [ha] at hlt
        exact ne_of_lt hlt
      simp only [List.orderedInsert, if_neg hr, List.filter_cons,
        decide_eq_true_eq, hb, if_false]
      rw [orderedInsert_filter_of_key_eq a k ha l]

/-- Inserting a shape whose top edge is not `k` does not change the shapes
with top edge `k`. -/
theorem orderedInsert_filter_of_key_ne (a : Shape) (k : Rat) (ha : top_y a ≠ k) :
    ∀ l : List Shape,
      (List.orderedInsert shape_top_le a l).filter (fun s => decide (top_y s = k)) =
        l.filter (fun s => decide (top_y s = k))
  | [] => by simp [ha]
  | b :: l => by
    by_cases hr : shape_top_le a b
    · rw [List.orderedInsert_of_le _ _ hr]
      simp [ha]
    · have ih := orderedInsert_filter_of_key_ne a k ha l
      simp only [List.orderedInsert, if_neg hr, List.filter_cons, ih]

/-- Stability of the model sort: the sublist of shapes with any given top
edge is unchanged by sorting (Python's `list.sort` is stable). -/
theorem insertionSort_filter_key (k : Rat) :
    ∀ l : List Shape,
      (List.insertionSort shape_top_le l).filter (fun s => decide (top_y s = k)) =
        l.filter (fun s => decide (top_y s = k))
  | [] => rfl
  | a :: l => by
    show (List.orderedInsert shape_top_le a (List.insertionSort shape_top_le l)).filter _ = _
    by_cases ha : top_y a = k
    · rw [orderedInsert_filter_of_key_eq a k ha, insertionSort_filter_key k l]
      simp [ha]
    · rw [orderedInsert_filter_of_key_ne a k ha, insertionSort_filter_key k l]
      simp [ha]

/-- **C5.** `assign_row_numbers` numbers the band's shapes `1, 2, 3, …` in
the order of the stable ascending top-edge sort: the output's row numbers
are `1..n` in order, the output is sorted by top edge, shapes with equal top
edge keep their discovery order, and the concrete band with top edges
`[40, 10, 25]` receives rows `[3, 1, 2]` respectively. -/
theorem assign_row_numbers_spec :
    (∀ l : List Shape,
      (Layout.assign_row_numbers l).map (fun s => s.row_number) =
        (List.range l.length).map (fun k => some (Int.ofNat k + 1)) ∧
      List.Pairwise shape_top_le (Layout.assign_row_numbers l) ∧
      ∀ k : Rat,
        ((Layout.assign_row_numbers l).filter (fun s => decide (top_y s = k))).map erase_row =
          (l.filter (fun s => decide (top_y s = k))).map erase_row) ∧
    Layout.assign_row_numbers
        [mkShape "szoveg" [(0, 40), (10, 50)] none none,
         mkShape "szoveg" [(0, 10), (10, 20)] none none,
         mkShape "szoveg" [(0, 25), (10, 35)] none none] =
      [{ mkShape "szoveg" [(0, 10), (10, 20)] none none with row_number := some 1 },
       { mkShape "szoveg" [(0, 25), (10, 35)] none none with row_number := some 2 },
       { mkShape "szoveg" [(0, 40), (10, 50)] none none with row_number := some 3 }] := by
  constructor
  · intro l
    refine ⟨?_, ?_, ?_⟩
    · unfold Layout.assign_row_numbers
      rw [List.map_map]
      have : ((fun s => s.row_number) ∘
          fun e : Nat × Shape => { e.2 with row_number := some (Int.ofNat e.1 + 1) }) =
          (fun k => some (Int.ofNat k + 1)) ∘ Prod.fst := rfl
      rw [this, ← List.map_map, List.enum_map_fst, List.length_insertionSort]
    · unfold Layout.assign_row_numbers
      rw [List.pairwise_map]
      have hs : List.Pairwise shape_top_le (List.insertionSort shape_top_le l) :=
        List.sorted_insertionSort shape_top_le l
      have := (List.pairwise_map (f := Prod.snd)
        (R := shape_top_le) (l := (List.insertionSort shape_top_le l).enum)).symm
      rw [List.enum_map_snd] at this
      exact (this.mpr hs).imp (fun h => h)
    · intro k
      unfold Layout.assign_row_numbers
      rw [List.filter_map, List.map_map]
      have h1 : ((fun s => decide (top_y s = k)) ∘
          fun e : Nat × Shape => { e.2 with row_number := some (Int.ofNat e.1 + 1) }) =
          (fun s => decide (top_y s = k)) ∘ Prod.snd := rfl
      have h2 : (erase_row ∘
          fun e : Nat × Shape => { e.2 with row_number := some (Int.ofNat e.1 + 1) }) =
          erase_row ∘ Prod.snd := rfl
      rw [h1, h2, ← List.map_map (g := erase_row) (f := Prod.snd), ← List.filter_map,
        List.enum_map_snd, insertionSort_filter_key]
  · decide

/-! ## C10: bottom-edge correction moves no edge upward -/

/-- The initial value bounds a `max` fold from below. -/
theorem init_le_foldl_max (l : List Rat) : ∀ a : Rat, a ≤ l.foldl max a := by
  induction l with
  | nil => intro a; exact le_refl a
  | cons b t ih => intro a; exact le_trans (le_max_left a b) (ih (max a b))

/-- Every member bounds a `max` fold from below. -/
theorem mem_le_foldl_max {x : Rat} {l : List Rat} (h : x ∈ l) : ∀ a : Rat, x ≤ l.foldl max a := by
  induction l with
  | nil => exact absurd h (List.not_mem_nil x)
  | cons b t ih =>
    intro a
    rcases List.mem_cons.1 h with rfl | hx
    · exact le_trans (le_max_right a x) (init_le_foldl_max t (max a x))
    · exact ih hx (max a b)

/-- Every member is at most the list maximum. -/
theorem le_rat_max_list {x : Rat} {l : List Rat} (h : x ∈ l) : x ≤ rat_max_list 0 l := by
  cases l with
  | nil => exact absurd h (List.not_mem_nil x)
  | cons a t =>
    rcases List.mem_cons.1 h with rfl | hx
    · exact init_le_foldl_max t x
    · exact mem_le_foldl_max hx a

/-- A `min` fold is bounded by its initial value. -/
theorem foldl_min_le_init (l : List Rat) : ∀ a : Rat, l.foldl min a ≤ a := by
  induction l with
  | nil => intro a; exact le_refl a
  | cons b t ih => intro a; exact le_trans (ih (min a b)) (min_le_left a b)

/-- The top edge of a bounding box never exceeds its bottom edge. -/
theorem top_y_le_bottom_y (s : Shape) : top_y s ≤ bottom_y s := by
  unfold top_y bottom_y get_element_bounds
  by_cases h : s.points.length ≥ 2
  · simp only [h, if_true]
    cases hp : s.points.map Prod.snd with
    | nil => simp [rat_min_list, rat_max_list]
    | cons a t =>
      simp only [rat_min_list, rat_max_list]
      exact le_trans (foldl_min_le_init t a) (init_le_foldl_max t a)
  · simp [h]

/-- **C10 (amended).** Bottom-edge correction never moves a bottom edge
upward; a shape that is not a correction candidate is returned unchanged; a
correction candidate with at least two polygon points gets its bottom edge
set to the page's correction target (the maximum candidate bottom edge).
A degenerate candidate with fewer than two points is left unchanged (see the
counterexample), which the original claim does not allow. -/
theorem correct_szoveg_spec (shapes : List Shape) (image_width : Rat) (j : Nat) (s s2 : Shape)
    (hs : shapes[j]? = some s)
    (hs2 : (Layout.correct_szoveg_coordinates shapes image_width)[j]? = some s2) :
    (j ∉ Layout.correction_candidates shapes image_width → s2 = s) ∧
    bottom_y s ≤ bottom_y s2 ∧
    (j ∈ Layout.correction_candidates shapes image_width → 2 ≤ s.points.length →
      bottom_y s2 = Layout.correction_target shapes image_width) := by
  unfold Layout.correct_szoveg_coordinates at hs2
  by_cases hemp : (Layout.correction_candidates shapes image_width).isEmpty
  · rw [if_pos hemp] at hs2
    rw [hs] at hs2
    injection hs2 with h2
    subst h2
    refine ⟨fun _ => rfl, le_refl _, fun hj _ => ?_⟩
    rw [List.isEmpty_iff] at hemp
    rw [hemp] at hj
    exact absurd hj (List.not_mem_nil j)
  · rw [if_neg hemp] at hs2
    rw [List.getElem?_map] at hs2
    rw [List.getElem?_enum, hs] at hs2
    simp only [Option.map_some] at hs2
    injection hs2 with h2
    simp only [ge_iff_le] at h2
    by_cases hj : j ∈ Layout.correction_candidates shapes image_width
    · by_cases hlen : 2 ≤ s.points.length
      · have hcond : (j, s).1 ∈ Layout.correction_candidates shapes image_width ∧
            2 ≤ (j, s).2.points.length := ⟨hj, hlen⟩
        rw [if_pos hcond] at h2
        have hbt : bottom_y s ≤ Layout.correction_target shapes image_width := by
          apply le_rat_max_list
          apply List.mem_filterMap.2
          exact ⟨j, hj, by rw [hs]; rfl⟩
        have hb2 : bottom_y s2 = Layout.correction_target shapes image_width := by
          subst h2
          unfold bottom_y get_element_bounds
          simp only [List.length_cons, List.length_nil, List.map_cons, List.map_nil]
          norm_num [rat_max_list]
          exact le_trans (top_y_le_bottom_y s) hbt
        exact ⟨fun hnj => absurd hj hnj, hb2 ▸ hbt, fun _ _ => hb2⟩
      · have hcond : ¬((j, s).1 ∈ Layout.correction_candidates shapes image_width ∧
            2 ≤ (j, s).2.points.length) := fun hc => hlen hc.2
        rw [if_neg hcond] at h2
        subst h2
        exact ⟨fun _ => rfl, le_refl _, fun _ hl => absurd hl hlen⟩
    · have hcond : ¬((j, s).1 ∈ Layout.correction_candidates shapes image_width ∧
          2 ≤ (j, s).2.points.length) := fun hc => hj hc.1
      rw [if_neg hcond] at h2
      subst h2
      exact ⟨fun _ => rfl, le_refl _, fun hc _ => absurd hc hj⟩

/-- **C10 counterexample.** On `c10_shapes` both shapes are correction
candidates and the target is `100`, but the degenerate one-point candidate
keeps its polygon, so its bottom edge stays `0` — it is *not* set to the
maximum candidate bottom as the claim states for every candidate. -/
theorem correct_szoveg_degenerate_counterexample :
    0 ∈ Layout.correction_candidates c10_shapes 900 ∧
    Layout.correction_target c10_shapes 900 = 100 ∧
    (Layout.correct_szoveg_coordinates c10_shapes 900)[0]? =
      some (mkShape "szoveg" [(5, 5)] none none) ∧
    bottom_y (mkShape "szoveg" [(5, 5)] none none) = 0 := by
  refine ⟨?_, ?_, ?_, ?_⟩ <;>
    norm_num [Layout.correct_szoveg_coordinates, Layout.correction_target,
      Layout.correction_candidates, Layout.bottommost_candidate, Layout.szoveg_in_column,
      Layout.find_elements_below, Layout.detect_column_boundaries, Layout.assign_column_number,
      get_element_center_x, get_element_bounds, top_y, bottom_y, left_x, right_x,
      rat_min_list, rat_max_list, mkShape, c10_shapes, List.enum, List.enumFrom,
      List.insertionSort, List.orderedInsert, bottom_desc, List.filter, List.filterMap]

/-- **C10 witness.** The amended theorem applied to the regular candidate of
`c10_shapes`. -/
theorem correct_szoveg_spec_witness :
    (1 ∉ Layout.correction_candidates c10_shapes 900 →
      mkShape "szoveg" [(400, 0), (500, 100)] none none =
        mkShape "szoveg" [(400, 0), (500, 100)] none none) ∧
    bottom_y (mkShape "szoveg" [(400, 0), (500, 100)] none none) ≤
      bottom_y (mkShape "szoveg" [(400, 0), (500, 100)] none none) ∧
    (1 ∈ Layout.correction_candidates c10_shapes 900 →
      2 ≤ (mkShape "szoveg" [(400, 0), (500, 100)] none none).points.length →
      bottom_y (mkShape "szoveg" [(400, 0), (500, 100)] none none) =
        Layout.correction_target c10_shapes 900) :=
  correct_szoveg_spec c10_shapes 900 1
    (mkShape "szoveg" [(400, 0), (500, 100)] none none)
    (mkShape "szoveg" [(400, 0), (500, 100)] none none)
    (by rfl)
    (by norm_num [Layout.correct_szoveg_coordinates, Layout.correction_target,
      Layout.correction_candidates, Layout.bottommost_candidate, Layout.szoveg_in_column,
      Layout.find_elements_below, Layout.detect_column_boundaries, Layout.assign_column_number,
      get_element_center_x, get_element_bounds, top_y, bottom_y, left_x, right_x,
      rat_min_list, rat_max_list, mkShape, c10_shapes, List.enum, List.enumFrom,
      List.insertionSort, List.orderedInsert, bottom_desc, List.filter, List.filterMap])

/-! ## C3: column/row assignment invariants -/

/-- Two members of a list with the same `indexOf` are equal. -/
theorem indexOf_inj_of_mem {l : List Nat} {a b : Nat} (ha : a ∈ l) (hb : b ∈ l)
    (h : l.indexOf a = l.indexOf b) : a = b := by
  have hla := List.indexOf_lt_length.2 ha
  have hlb := List.indexOf_lt_length.2 hb
  have h1 := List.indexOf_get hla
  have h2 := List.indexOf_get hlb
  rw [show (⟨l.indexOf a, hla⟩ : Fin l.length) = ⟨l.indexOf b, hlb⟩ from Fin.ext h] at h1
  exact h1.symm.trans h2

/-- Bottom-edge correction changes only `points`: the column and row fields
at every position are untouched. -/
theorem correct_szoveg_preserves_colrow (shapes : List Shape) (w : Rat) (i : Nat) :
    ((Layout.correct_szoveg_coordinates shapes w)[i]?).map
        (fun s => (s.column_number, s.row_number)) =
      (shapes[i]?).map (fun s => (s.column_number, s.row_number)) := by
  unfold Layout.correct_szoveg_coordinates
  dsimp only
  split
  · rfl
  · rw [List.getElem?_map, List.getElem?_enum]
    cases shapes[i]? with
    | none => rfl
    | some s =>
      rcases Decidable.em ((i, s).1 ∈ Layout.correction_candidates shapes w ∧
          (i, s).2.points.length ≥ 2) with hc | hc
      · simp [hc]
      · simp [hc]

/-- Positional description of `assign_rows_all`. -/
theorem assign_rows_all_getElem (l : List Shape) (i : Nat) :
    (Layout.assign_rows_all l)[i]? = (l[i]?).map (fun s =>
      match s.column_number with
      | some c =>
        if c = 0 then s
        else { s with row_number := some (Int.ofNat (Layout.column_rank l.enum c i)) }
      | none => s) := by
  unfold Layout.assign_rows_all
  rw [List.getElem?_map, List.getElem?_enum]
  cases l[i]? with
  | none => rfl
  | some s => rfl

/-- What `process_page_layout` does to the shape at position `i` of a
non-empty page: its column becomes `page_column`, its row is untouched for
column 0 and is the column rank otherwise. -/
theorem process_page_layout_shape (pg : Page) (i : Nat) (si : Shape)
    (hne : ¬ pg.shapes.isEmpty = true)
    (h : (Layout.process_page_layout pg).shapes[i]? = some si) :
    ∃ s0, pg.shapes[i]? = some s0 ∧
      si.column_number = some (Layout.page_column pg s0) ∧
      (Layout.page_column pg s0 = 0 → si.row_number = s0.row_number) ∧
      (Layout.page_column pg s0 ≠ 0 → si.row_number =
        some (Int.ofNat (Layout.column_rank (Layout.classified_shapes pg).enum
          (Layout.page_column pg s0) i))) := by
  unfold Layout.process_page_layout at h
  rw [if_neg hne] at h
  have hpres := correct_szoveg_preserves_colrow
    (Layout.assign_rows_all (Layout.classified_shapes pg)) pg.imageWidth i
  rw [h] at hpres
  rw [assign_rows_all_getElem] at hpres
  have hcls : (Layout.classified_shapes pg)[i]? = (pg.shapes[i]?).map
      (fun s => { s with column_number := some (Layout.page_column pg s) }) := by
    unfold Layout.classified_shapes
    rw [List.getElem?_map]
  rw [hcls] at hpres
  cases hs0 : pg.shapes[i]? with
  | none => rw [hs0] at hpres; simp at hpres
  | some s0 =>
    rw [hs0] at hpres
    have hpair := Option.some.inj hpres
    refine ⟨s0, rfl, ?_, ?_, ?_⟩
    · by_cases hc : Layout.page_column pg s0 = 0
      · simp only [hc, if_pos rfl] at hpair
        have := congrArg Prod.fst hpair
        simpa [hc] using this
      · simp only [if_neg hc] at hpair
        have := congrArg Prod.fst hpair
        simpa using this
    · intro hc
      simp only [hc, if_pos rfl] at hpair
      have := congrArg Prod.snd hpair
      simpa using this
    · intro hc
      simp only [if_neg hc] at hpair
      have := congrArg Prod.snd hpair
      simpa using this

/-- A banded shape's index appears in its column's rank list. -/
theorem mem_rank_list (pg : Page) (i : Nat) (s0 : Shape) (c : Int)
    (hs0 : pg.shapes[i]? = some s0) (hc : Layout.page_column pg s0 = c) :
    i ∈ (List.insertionSort entry_top_le ((Layout.classified_shapes pg).enum.filter
      (fun e => decide (e.2.column_number = some c)))).map Prod.fst := by
  have hmem : (i, { s0 with column_number := some (Layout.page_column pg s0) }) ∈
      (Layout.classified_shapes pg).enum.filter
        (fun e => decide (e.2.column_number = some c)) := by
    rw [List.mem_filter]
    constructor
    · apply (List.mk_mem_enum_iff_getElem? (l := Layout.classified_shapes pg)).2
      unfold Layout.classified_shapes
      rw [List.getElem?_map, hs0]
      rfl
    · simp [hc]
  have hsort : (i, { s0 with column_number := some (Layout.page_column pg s0) }) ∈
      List.insertionSort entry_top_le ((Layout.classified_shapes pg).enum.filter
        (fun e => decide (e.2.column_number = some c))) :=
    (List.mem_insertionSort entry_top_le).2 hmem
  exact List.mem_map_of_mem Prod.fst hsort

/-- **C3 (amended).** After `process_page_layout`: (a) `row_number` is unique
within every `(page, column_number = c ≠ 0)` group; (b) every shape assigned
`column_number = 0` keeps exactly the `row_number` it arrived with — in
particular it carries none when it arrived with none, but a pre-existing
`row_number` on a full-width shape *survives* (see the counterexample),
contrary to the claim's "ignored and overwritten". -/
theorem process_page_layout_invariants (pg : Page) :
    (∀ (i j : Nat) (si sj : Shape) (c : Int), i ≠ j →
      (Layout.process_page_layout pg).shapes[i]? = some si →
      (Layout.process_page_layout pg).shapes[j]? = some sj →
      si.column_number = some c → sj.column_number = some c → c ≠ 0 →
      si.row_number ≠ sj.row_number) ∧
    (∀ (i : Nat) (si s0 : Shape), pg.shapes[i]? = some s0 →
      (Layout.process_page_layout pg).shapes[i]? = some si →
      si.column_number = some 0 → si.row_number = s0.row_number) := by
  by_cases hne : pg.shapes.isEmpty
  · have hout : Layout.process_page_layout pg = pg := by
      unfold Layout.process_page_layout
      rw [if_pos hne]
    rw [List.isEmpty_iff] at hne
    constructor
    · intro i j si sj c _ hi _ _ _ _
      rw [hout, hne] at hi
      simp at hi
    · intro i si s0 hs0 _ _
      rw [hne] at hs0
      simp at hs0
  · constructor
    · intro i j si sj c hij hi hj hci hcj hc0
      obtain ⟨s0i, hs0i, hcoli, _, hrowi⟩ := process_page_layout_shape pg i si hne hi
      obtain ⟨s0j, hs0j, hcolj, _, hrowj⟩ := process_page_layout_shape pg j sj hne hj
      rw [hci] at hcoli
      rw [hcj] at hcolj
      have hcci : Layout.page_column pg s0i = c := (Option.some.inj hcoli).symm
      have hccj : Layout.page_column pg s0j = c := (Option.some.inj hcolj).symm
      have hri := hrowi (by rw [hcci]; exact hc0)
      have hrj := hrowj (by rw [hccj]; exact hc0)
      rw [hcci] at hri
      rw [hccj] at hrj
      rw [hri, hrj]
      intro heq
      have hnat : Layout.column_rank (Layout.classified_shapes pg).enum c i =
          Layout.column_rank (Layout.classified_shapes pg).enum c j :=
        Int.ofNat.inj (Option.some.inj heq)
      unfold Layout.column_rank at hnat
      have hidx := Nat.succ_injective hnat
      exact hij (indexOf_inj_of_mem (mem_rank_list pg i s0i c hs0i hcci)
        (mem_rank_list pg j s0j c hs0j hccj) hidx)
    · intro i si s0 hs0 hi hc0
      obtain ⟨s0b, hs0b, hcol, hrow0, _⟩ := process_page_layout_shape pg i si hne hi
      rw [hs0] at hs0b
      have hss : s0 = s0b := Option.some.inj hs0b
      subst hss
      rw [hc0] at hcol
      exact hrow0 (Option.some.inj hcol).symm

/-- **C3 counterexample.** A `szeles_cim` arriving with `row_number = 5` is
assigned `column_number = 0` but keeps its stale `row_number` — the Assigner
does not overwrite `row_number` on full-width shapes, contradicting the
claim that column-0 shapes carry no row number even for inputs with
pre-existing values. -/
theorem process_page_layout_stale_row_counterexample :
    ((Layout.process_page_layout c3_page).shapes[0]?).map
        (fun s => (s.column_number, s.row_number)) = some (some 0, some 5) := by
  norm_num [Layout.process_page_layout, Layout.classified_shapes, Layout.page_column,
    Layout.page_boundaries, Layout.assign_rows_all, Layout.column_rank,
    Layout.correct_szoveg_coordinates, Layout.correction_candidates,
    Layout.bottommost_candidate, Layout.szoveg_in_column, Layout.find_elements_below,
    Layout.detect_column_boundaries, Layout.assign_column_number, Layout.classify_column,
    get_element_center_x, get_element_bounds, top_y, bottom_y, left_x, right_x,
    rat_min_list, rat_max_list, mkShape, c3_page, List.enum, List.enumFrom,
    List.insertionSort, List.orderedInsert, bottom_desc, entry_top_le,
    List.filter, List.filterMap]
  decide

/-- **C3 witness.** The amended theorem applied to the two-shape page: the
two column-1 shapes receive distinct row numbers. -/
theorem process_page_layout_invariants_witness :
    ({ mkShape "szoveg" [(0, 0), (10, 10)] none none with
        column_number := some 1, row_number := some 1 } : Shape).row_number ≠
      ({ mkShape "szoveg" [(0, 20), (10, 30)] none none with
        column_number := some 1, row_number := some 2 } : Shape).row_number := by
  have heval0 : (Layout.process_page_layout c3w_page).shapes[0]? =
      some { mkShape "szoveg" [(0, 0), (10, 10)] none none with
        column_number := some 1, row_number := some 1 } := by
    norm_num [Layout.process_page_layout, Layout.classified_shapes, Layout.page_column,
      Layout.page_boundaries, Layout.assign_rows_all, Layout.column_rank,
      Layout.correct_szoveg_coordinates, Layout.correction_candidates,
      Layout.bottommost_candidate, Layout.szoveg_in_column, Layout.find_elements_below,
      Layout.detect_column_boundaries, Layout.assign_column_number, Layout.classify_column,
      get_element_center_x, get_element_bounds, top_y, bottom_y, left_x, right_x,
      rat_min_list, rat_max_list, mkShape, c3w_page, List.enum, List.enumFrom,
      List.insertionSort, List.orderedInsert, bottom_desc, entry_top_le,
      List.filter, List.filterMap, List.indexOf, List.findIdx, List.findIdx.go]
  have heval1 : (Layout.process_page_layout c3w_page).shapes[1]? =
      some { mkShape "szoveg" [(0, 20), (10, 30)] none none with
        column_number := some 1, row_number := some 2 } := by
    norm_num [Layout.process_page_layout, Layout.classified_shapes, Layout.page_column,
      Layout.page_boundaries, Layout.assign_rows_all, Layout.column_rank,
      Layout.correct_szoveg_coordinates, Layout.correction_candidates,
      Layout.bottommost_candidate, Layout.szoveg_in_column, Layout.find_elements_below,
      Layout.detect_column_boundaries, Layout.assign_column_number, Layout.classify_column,
      get_element_center_x, get_element_bounds, top_y, bottom_y, left_x, right_x,
      rat_min_list, rat_max_list, mkShape, c3w_page, List.enum, List.enumFrom,
      List.insertionSort, List.orderedInsert, bottom_desc, entry_top_le,
      List.filter, List.filterMap, List.indexOf, List.findIdx, List.findIdx.go]
    decide
  exact (process_page_layout_invariants c3w_page).1 0 1 _ _ 1 (by decide) heval0 heval1
    rfl rfl (by decide)

/-! ## C7: the composer and textless shapes -/

/-- A string of length zero is empty. -/
theorem string_eq_empty_of_length_zero (s : String) (h : s.length = 0) : s = "" := by
  cases s with
  | mk data =>
    cases data with
    | nil => rfl
    | cons a l => simp [String.length] at h

/-- A string starting with a non-empty prepended literal is non-empty. -/
theorem append_ne_empty_left (a b : String) (ha : a ≠ "") : a ++ b ≠ "" := by
  intro h
  apply ha
  have hlen := congrArg String.length h
  rw [String.length_append] at hlen
  have hz : ("" : String).length = 0 := rfl
  exact string_eq_empty_of_length_zero a (by omega)

/-- The guarded field loop only returns non-empty strings. -/
theorem field_first_nonempty_ne_empty (l : List JVal) (t : String)
    (h : field_first_nonempty l = some t) : t ≠ "" := by
  induction l with
  | nil => exact absurd h (by simp [field_first_nonempty])
  | cons v rest ih =>
    cases v with
    | absent => exact ih h
    | null => exact ih h
    | str u =>
      unfold field_first_nonempty at h
      by_cases hg : u ≠ "" ∧ py_strip u ≠ ""
      · rw [if_pos hg] at h
        exact (Option.some.inj h) ▸ hg.2
      · rw [if_neg hg] at h
        exact ih h

/-- A successful `direct_text_step` only yields non-empty strings. -/
theorem direct_text_step_ok_ne_empty (s : Shape) (u : String)
    (hu : Extractor.direct_text_step s = Except.ok (some u)) : u ≠ "" := by
  unfold Extractor.direct_text_step at hu
  cases htext : s.text with
  | null => simp [htext] at hu
  | absent =>
    simp only [htext] at hu
    exact field_first_nonempty_ne_empty _ u (Except.ok.inj hu)
  | str w =>
    simp only [htext] at hu
    by_cases hg : py_strip w ≠ ""
    · rw [if_pos hg] at hu
      exact (Option.some.inj (Except.ok.inj hu)) ▸ hg
    · rw [if_neg hg] at hu
      exact field_first_nonempty_ne_empty _ u (Except.ok.inj hu)

/-- Unwrapping the `Except` result of the composer's extraction after the
OCR branch only yields non-empty strings. -/
theorem after_ocr_ne_empty (s : Shape) (t : String)
    (h : (match Extractor.direct_text_step s with
          | Except.ok v => v
          | Except.error _ => none) = some t) : t ≠ "" := by
  cases he : Extractor.direct_text_step s with
  | error e => simp [he] at h
  | ok v =>
    simp only [he] at h
    cases v with
    | none => simp at h
    | some u2 => exact (Option.some.inj h) ▸ direct_text_step_ok_ne_empty s u2 (by rw [he, Option.some.inj h])

/-- The composer's extracted texts are non-empty. -/
theorem extract_value_ne_empty (s : Shape) (t : String)
    (h : Extractor.extract_value s = some t) : t ≠ "" := by
  unfold Extractor.extract_value Extractor.extract_text_from_shape at h
  cases hocr : s.tesseract_ocr_text with
  | str u =>
    simp only [hocr] at h
    by_cases hg : u ≠ "" ∧ py_strip u ≠ ""
    · rw [if_pos hg] at h
      exact (Option.some.inj h) ▸ hg.2
    · rw [if_neg hg] at h
      exact after_ocr_ne_empty s t h
  | absent =>
    simp only [hocr] at h
    exact after_ocr_ne_empty s t h
  | null =>
    simp only [hocr] at h
    exact after_ocr_ne_empty s t h

/-- **C7 (amended).** The column loop emits, per scanned banded shape, a
column-break marker when its column differs from the previous banded
shape's, followed by its text fragment when it has extractable text; a
textless shape contributes no text fragment and no empty fragment is ever
emitted, but a textless shape *does* participate in column tracking and can
cause a column marker (see the counterexample), so the stream is not
produced by text-bearing shapes alone. -/
theorem column_parts_spec :
    (∀ (cur : Option Int) (l : List Shape),
      Extractor.column_parts cur l = Extractor.spec_column_parts cur l) ∧
    (∀ (cur : Option Int) (l : List Shape), ∀ f ∈ Extractor.column_parts cur l, f ≠ "") ∧
    (∀ (l : List Shape), ∀ f ∈ Extractor.title_parts l, f ≠ "") := by
  refine ⟨?_, ?_, ?_⟩
  · intro cur l
    induction l generalizing cur with
    | nil => rfl
    | cons s rest ih =>
      show Extractor.marker_frag cur (colD s) ++ Extractor.text_frag s ++
          Extractor.column_parts (some (colD s)) rest = _
      rw [ih (some (colD s))]
      unfold Extractor.spec_column_parts
      rw [List.map_cons, List.zip_cons_cons, List.flatMap_cons]
  · intro cur l
    induction l generalizing cur with
    | nil => intro f hf; exact absurd hf (List.not_mem_nil f)
    | cons s rest ih =>
      intro f hf
      show f ≠ ""
      have hf2 : f ∈ Extractor.marker_frag cur (colD s) ++ Extractor.text_frag s ++
          Extractor.column_parts (some (colD s)) rest := hf
      rcases List.mem_append.1 hf2 with hf3 | hf3
      · rcases List.mem_append.1 hf3 with hf4 | hf4
        · cases cur with
          | none =>
            simp only [Extractor.marker_frag] at hf4
            rw [List.mem_singleton.1 hf4]
            exact append_ne_empty_left _ _ (append_ne_empty_left _ _ (by decide))
          | some cc =>
            simp only [Extractor.marker_frag] at hf4
            by_cases hcc : colD s ≠ cc
            · rw [if_pos hcc] at hf4
              rw [List.mem_singleton.1 hf4]
              exact append_ne_empty_left _ _ (append_ne_empty_left _ _ (by decide))
            · rw [if_neg hcc] at hf4
              exact absurd hf4 (List.not_mem_nil f)
        · unfold Extractor.text_frag at hf4
          cases hv : Extractor.extract_value s with
          | none => rw [hv] at hf4; exact absurd hf4 (List.not_mem_nil f)
          | some t =>
            rw [hv] at hf4
            rw [List.mem_singleton.1 hf4]
            by_cases hl : s.label = "hasabkozi_cim"
            · rw [if_pos hl]
              exact append_ne_empty_left _ _ (by decide)
            · rw [if_neg hl]
              exact extract_value_ne_empty s t hv
      · exact ih (some (colD s)) f hf3
  · intro l f hf
    unfold Extractor.title_parts at hf
    rcases List.mem_filterMap.1 hf with ⟨s, _, hs⟩
    cases hv : Extractor.extract_value s with
    | none => rw [hv] at hs; exact absurd hs (by simp)
    | some t =>
      rw [hv] at hs
      simp only [Option.map_some'] at hs
      rw [← Option.some.inj hs]
      exact append_ne_empty_left _ _ (by decide)

/-- **C7 counterexample.** A page whose single banded shape has no
extractable text still produces the fragment `[COLUMN 1]`: the textless
shape contributes a column-break marker on its behalf, so it is not true
that shapes without extractable text contribute no fragment to the output
stream. -/
theorem process_json_file_textless_counterexample :
    (∀ s ∈ c7_page.shapes, Extractor.extract_value s = none) ∧
    Extractor.process_json_file c7_page = "[COLUMN 1]" := by
  constructor
  · intro s hs
    rcases List.mem_singleton.1 hs with rfl
    rfl
  · rfl

/-! ## C2: the stop search -/

/-- The per-page loop of the stop search agrees with the find over the
flattened filtered scan, from any page index at or past the start page. -/
theorem stopping_point_go_eq_spec (cur : Nat) (c r : Int) :
    ∀ (pages : List (Option Page)) (n : Nat), cur ≤ n →
      Collector.stopping_point_go cur c r n pages =
        Collector.spec_stop_find cur c r n pages := by
  intro pages
  induction pages with
  | nil => intro n _; rfl
  | cons opg rest ih =>
    intro n hn
    unfold Collector.spec_stop_find
    have henum : (opg :: rest).enumFrom n = (n, opg) :: rest.enumFrom (n + 1) := rfl
    rw [henum, List.flatMap_cons, List.filter_append, List.find?_append]
    cases opg with
    | none =>
      show Collector.stopping_point_go cur c r (n + 1) rest = _
      rw [ih (n + 1) (le_trans hn (Nat.le_succ n))]
      rfl
    | some pg =>
      have hchunk : ((Collector.stop_scan_entries n (some pg)).filter
          (fun e => Collector.strictly_after_start cur c r e.1 e.2)) =
          ((Collector.stop_scan_shapes pg.shapes).filter
            (fun s => Collector.strictly_after_start cur c r n s)).map (fun s => (n, s)) := by
        show (((Collector.stop_scan_shapes pg.shapes).map (fun s => (n, s))).filter _) = _
        rw [List.filter_map]
        rfl
      rw [hchunk, List.find?_map]
      have hfilt : (Collector.stop_scan_shapes pg.shapes).filter
          (fun s => Collector.strictly_after_start cur c r n s) =
          (if n = cur then
            (Collector.stop_scan_shapes pg.shapes).filter (Collector.after_start c r)
          else Collector.stop_scan_shapes pg.shapes) := by
        rcases Nat.lt_or_ge cur n with hlt | hge
        · rw [if_neg (by omega)]
          apply List.filter_eq_self.mpr
          intro s _
          unfold Collector.strictly_after_start
          simp [hlt]
        · have hcur : n = cur := le_antisymm (by omega) hn
          rw [if_pos hcur]
          apply List.filter_congr
          intro s _
          unfold Collector.strictly_after_start
          simp [hcur]
      unfold Collector.stopping_point_go
      dsimp only
      rw [← hfilt]
      have hcomp : ((fun e : Nat × Shape => Collector.is_stop_element e.2) ∘ fun s => (n, s)) =
          Collector.is_stop_element := rfl
      rw [hcomp]
      cases hfind : ((Collector.stop_scan_shapes pg.shapes).filter
          (fun s => Collector.strictly_after_start cur c r n s)).find?
            Collector.is_stop_element with
      | some e => rfl
      | none =>
        show Collector.stopping_point_go cur c r (n + 1) rest = _
        rw [ih (n + 1) (le_trans hn (Nat.le_succ n))]
        rfl

/-- Pages strictly before the start page contribute nothing to the filtered
stop-search scan. -/
theorem spec_stop_find_skip (cur : Nat) (c r : Int) :
    ∀ (pages : List (Option Page)) (n : Nat), n ≤ cur →
      Collector.spec_stop_find cur c r n pages =
        Collector.spec_stop_find cur c r cur (pages.drop (cur - n)) := by
  intro pages
  induction pages with
  | nil =>
    intro n _
    rw [List.drop_nil]
    rfl
  | cons opg rest ih =>
    intro n hn
    rcases Nat.eq_or_lt_of_le hn with heq | hlt
    · rw [heq, Nat.sub_self, List.drop_zero]
    · have hstep : Collector.spec_stop_find cur c r n (opg :: rest) =
          Collector.spec_stop_find cur c r (n + 1) rest := by
        unfold Collector.spec_stop_find
        have henum : (opg :: rest).enumFrom n = (n, opg) :: rest.enumFrom (n + 1) := rfl
        rw [henum, List.flatMap_cons, List.filter_append, List.find?_append]
        have hnil : (Collector.stop_scan_entries n opg).filter
            (fun e => Collector.strictly_after_start cur c r e.1 e.2) = [] := by
          apply List.filter_eq_nil_iff.mpr
          intro e he
          cases opg with
          | none => exact absurd he (List.not_mem_nil e)
          | some pg =>
            rcases List.mem_map.1 he with ⟨s, _, rfl⟩
            unfold Collector.strictly_after_start
            simp [Nat.not_lt.2 (le_of_lt hlt), Nat.ne_of_lt hlt]
        rw [hnil]
        rfl
      rw [hstep, ih (n + 1) hlt]
      have hdrop : (opg :: rest).drop (cur - n) = rest.drop (cur - (n + 1)) := by
        have h1 : cur - n = (cur - (n + 1)) + 1 := by omega
        rw [h1, List.drop_succ_cons]
      rw [hdrop]

/-- The stop search equals its canonical-scan specification (helper shared
by the stop-search and error-handling claims). -/
theorem gnsp_eq_spec (cur : Nat) (c r : Int) (corpus : List (Option Page)) :
    Collector.get_next_stopping_point cur c r corpus =
      Collector.spec_stopping_point cur c r corpus := by
  unfold Collector.get_next_stopping_point
  rw [stopping_point_go_eq_spec cur c r (corpus.drop cur) cur (le_refl cur)]
  have h0 : Collector.spec_stopping_point cur c r corpus =
      Collector.spec_stop_find cur c r 0 corpus := rfl
  rw [h0, spec_stop_find_skip cur c r corpus 0 (Nat.zero_le cur), Nat.sub_zero]

/-- **C2 (amended).** `get_next_stopping_point` returns the position of the
first shape in the canonical scan (ascending page, then column, then row;
only shapes with both metadata fields are scanned) strictly after the
starting position whose label is `szeles_cim`, or whose label is
`hasabkozi_cim` and whose extractable text exists and fails the marker-match
test; exhausting the corpus yields `none` (`EXHAUSTED`), a successful
result.  A `hasabkozi_cim` *without* extractable text is skipped, not a stop
element — the claim's reading of "does not satisfy the marker-match test"
fails on it (see the counterexample). -/
theorem get_next_stopping_point_spec (cur : Nat) (c r : Int) (corpus : List (Option Page)) :
    Collector.get_next_stopping_point cur c r corpus =
      Collector.spec_stopping_point cur c r corpus :=
  gnsp_eq_spec cur c r corpus

/-- **C2 counterexample.** On `c2_corpus` the textless `hasabkozi_cim` at
position `(0, 1, 2)` does not satisfy the marker-match test (it has no text
at all), so under the claim's wording it is the stop element; the code skips
it (`if text and not contains_toke_munka(text)`) and reports corpus
exhaustion instead. -/
theorem stopping_point_textless_counterexample :
    Collector.get_next_stopping_point 0 1 1 c2_corpus = none ∧
    Collector.spec_stopping_point_claim 0 1 1 c2_corpus = some (0, 1, 2) := by decide

/-! ## C9: per-page failures are local -/

/-- Replacing unloadable pages with empty pages leaves the corpus scan
unchanged: an empty page contributes no scan entries, exactly like a page
that failed to load. -/
theorem corpus_stop_scan_mask (corpus : List (Option Page)) :
    Collector.corpus_stop_scan (Collector.mask_failures corpus) =
      Collector.corpus_stop_scan corpus := by
  unfold Collector.corpus_stop_scan Collector.mask_failures
  have haux : ∀ (pages : List (Option Page)) (n : Nat),
      ((pages.map (fun opg => some (opg.getD { shapes := [], imageWidth := 3000 }))).enumFrom
        n).flatMap (fun e => Collector.stop_scan_entries e.1 e.2) =
      (pages.enumFrom n).flatMap (fun e => Collector.stop_scan_entries e.1 e.2) := by
    intro pages
    induction pages with
    | nil => intro n; rfl
    | cons opg rest ih =>
      intro n
      have h1 : ((opg :: rest).map
          (fun opg => some (opg.getD { shapes := [], imageWidth := 3000 }))).enumFrom n =
          (n, some (opg.getD { shapes := [], imageWidth := 3000 })) ::
            ((rest.map (fun opg => some (opg.getD { shapes := [], imageWidth := 3000 }))).enumFrom
              (n + 1)) := rfl
      have h2 : (opg :: rest).enumFrom n = (n, opg) :: rest.enumFrom (n + 1) := rfl
      rw [h1, h2, List.flatMap_cons, List.flatMap_cons, ih (n + 1)]
      congr 1
      cases opg with
      | none => rfl
      | some pg => rfl
  exact haux corpus 0

/-- Masking failures does not move the stop search's result. -/
theorem gnsp_mask (cur : Nat) (c r : Int) (corpus : List (Option Page)) :
    Collector.get_next_stopping_point cur c r (Collector.mask_failures corpus) =
      Collector.get_next_stopping_point cur c r corpus := by
  rw [gnsp_eq_spec, gnsp_eq_spec]
  unfold Collector.spec_stopping_point
  rw [corpus_stop_scan_mask]

/-- When the stop search succeeds, its page is at or after the start and it
loads, and the stop coordinates belong to one of that page's stop-scan
shapes, strictly after the starting position. -/
theorem gnsp_some_facts (cur : Nat) (c r : Int) (corpus : List (Option Page))
    (sf : Nat) (sc sr : Int)
    (h : Collector.get_next_stopping_point cur c r corpus = some (sf, sc, sr)) :
    cur ≤ sf ∧ ∃ pg e, corpus[sf]? = some (some pg) ∧
      e ∈ Collector.stop_scan_shapes pg.shapes ∧
      Collector.strictly_after_start cur c r sf e = true ∧ colD e = sc ∧ rowD e = sr := by
  rw [gnsp_eq_spec] at h
  unfold Collector.spec_stopping_point at h
  cases hfind : ((Collector.corpus_stop_scan corpus).filter
      (fun e => Collector.strictly_after_start cur c r e.1 e.2)).find?
        (fun e => Collector.is_stop_element e.2) with
  | none => rw [hfind] at h; exact absurd h (by simp)
  | some e =>
    rw [hfind] at h
    simp only [Option.map_some'] at h
    have he : e.1 = sf ∧ colD e.2 = sc ∧ rowD e.2 = sr := by
      have h1 := congrArg Prod.fst (Option.some.inj h)
      have h2 := congrArg (fun p => p.2.1) (Option.some.inj h)
      have h3 := congrArg (fun p => p.2.2) (Option.some.inj h)
      exact ⟨h1, h2, h3⟩
    have hmem := List.mem_of_find?_eq_some hfind
    have hfilt := List.mem_filter.1 hmem
    have hafter := hfilt.2
    have hscan := hfilt.1
    unfold Collector.corpus_stop_scan at hscan
    rcases List.mem_flatMap.1 hscan with ⟨⟨i, opg⟩, hienum, hent⟩
    cases opg with
    | none => exact absurd hent (List.not_mem_nil e)
    | some pg =>
      rcases List.mem_map.1 hent with ⟨s, hs, hes⟩
      have hi : i = e.1 := congrArg Prod.fst hes
      have hse : s = e.2 := congrArg Prod.snd hes
      have hload : corpus[i]? = some (some pg) :=
        (List.mk_mem_enum_iff_getElem? (l := corpus)).1 hienum
      subst hi
      rw [he.1] at hload
      refine ⟨?_, pg, e.2, hload, hse ▸ hs, ?_, he.2.1, he.2.2⟩
      · have : Collector.strictly_after_start cur c r e.1 e.2 = true := hafter
        unfold Collector.strictly_after_start at this
        rw [he.1] at this
        rcases Bool.or_eq_true_iff.1 this with hlt | heq
        · exact le_of_lt (of_decide_eq_true hlt)
        · exact le_of_eq (of_decide_eq_true (Bool.and_eq_true_iff.1 heq).1).symm
      · rw [← he.1]
        exact hafter

/-- The collection loop is unchanged when unloadable pages are replaced by
empty pages, as long as the recorded stop page (if any) is at or after the
current page and loads: a failed page contributes no fragments either way,
and the outer break can only fire on the (loaded) stop page. -/
theorem collect_files_go_mask_aux (startIdx : Nat) (c r : Int) :
    ∀ (pages : List (Option Page)) (n : Nat) (ostop : Option (Nat × Int × Int)),
      (∀ sf sc sr, ostop = some (sf, sc, sr) → n ≤ sf ∧
        ∃ pg, pages[sf - n]? = some (some pg)) →
      Collector.collect_files_go startIdx c r ostop n pages =
        Collector.collect_files_go startIdx c r ostop n
          (pages.map (fun opg => some (opg.getD { shapes := [], imageWidth := 3000 }))) := by
  intro pages
  induction pages with
  | nil => intro n ostop _; rfl
  | cons opg rest ih =>
    intro n ostop hstop
    have hnext : ∀ sf sc sr, ostop = some (sf, sc, sr) → ¬ sf ≤ n → n + 1 ≤ sf ∧
        ∃ pg, rest[sf - (n + 1)]? = some (some pg) := by
      intro sf sc sr hso hbr
      rcases hstop sf sc sr hso with ⟨hn, pg, hpg⟩
      have hlt : n < sf := by omega
      refine ⟨by omega, pg, ?_⟩
      have harith : sf - n = (sf - (n + 1)) + 1 := by omega
      rw [harith, List.getElem?_cons_succ] at hpg
      exact hpg
    cases opg with
    | none =>
      have hbreak : Collector.should_break ostop n = false := by
        cases hso : ostop with
        | none => rfl
        | some st =>
          rcases hstop st.1 st.2.1 st.2.2 (by rw [hso]) with ⟨hn, pg, hpg⟩
          by_cases hsf : st.1 ≤ n
          · have hz : st.1 - n = 0 := by omega
            rw [hz] at hpg
            simp at hpg
          · unfold Collector.should_break
            simp [hsf]
      have hlhs : Collector.collect_files_go startIdx c r ostop n (none :: rest) =
          Collector.collect_files_go startIdx c r ostop (n + 1) rest := rfl
      have hrhs : Collector.collect_files_go startIdx c r ostop n
          ((none :: rest).map (fun opg => some (opg.getD { shapes := [], imageWidth := 3000 }))) =
          Collector.collect_files_go startIdx c r ostop (n + 1)
            (rest.map (fun opg => some (opg.getD { shapes := [], imageWidth := 3000 }))) := by
        show (if Collector.should_break ostop n = true then ([] : List String)
          else [] ++ Collector.collect_files_go startIdx c r ostop (n + 1)
            (rest.map (fun opg => some (opg.getD { shapes := [], imageWidth := 3000 })))) = _
        rw [hbreak]
        simp
      rw [hlhs, hrhs]
      exact ih (n + 1) ostop (fun sf sc sr hso => hnext sf sc sr hso
        (by
          rcases hstop sf sc sr hso with ⟨hn, pg, hpg⟩
          intro hle
          have hz : sf - n = 0 := by omega
          rw [hz] at hpg
          simp at hpg))
    | some pg =>
      show (if Collector.should_break ostop n = true then
          Collector.collect_page_go startIdx c r ostop n
            (Collector.collect_scan_shapes pg.shapes)
        else Collector.collect_page_go startIdx c r ostop n
            (Collector.collect_scan_shapes pg.shapes) ++
          Collector.collect_files_go startIdx c r ostop (n + 1) rest) = _
      by_cases hbr : Collector.should_break ostop n = true
      · rw [if_pos hbr]
        show _ = (if Collector.should_break ostop n = true then _ else _)
        rw [if_pos hbr]
        rfl
      · rw [if_neg hbr]
        show _ = (if Collector.should_break ostop n = true then _ else _)
        rw [if_neg hbr]
        congr 1
        apply ih (n + 1) ostop
        intro sf sc sr hso
        apply hnext sf sc sr hso
        intro hle
        apply hbr
        unfold Collector.should_break
        rw [hso]
        simp [hle]

/-- Masking failures does not change the collected span content. -/
theorem collect_column_content_mask (startIdx : Nat) (startShape : Shape)
    (corpus : List (Option Page)) :
    Collector.collect_column_content startIdx startShape (Collector.mask_failures corpus) =
      Collector.collect_column_content startIdx startShape corpus := by
  unfold Collector.collect_column_content
  cases hc : startShape.column_number with
  | none => rfl
  | some c =>
    cases hr : startShape.row_number with
    | none => rfl
    | some r =>
      dsimp only
      rw [gnsp_mask]
      have hmaskdrop : (Collector.mask_failures corpus).drop startIdx =
          (corpus.drop startIdx).map
            (fun opg => some (opg.getD { shapes := [], imageWidth := 3000 })) := by
        unfold Collector.mask_failures
        rw [List.map_drop]
      rw [hmaskdrop]
      congr 1
      symm
      apply collect_files_go_mask_aux
      intro sf sc sr hso
      rcases gnsp_some_facts startIdx c r corpus sf sc sr hso with ⟨hle, pg, e, hload, _⟩
      refine ⟨hle, pg, ?_⟩
      rw [List.getElem?_drop]
      have harith : startIdx + (sf - startIdx) = sf := by omega
      rw [harith]
      exact hload

/-- One page's contribution to the `process_files` count matches the
specification-side per-page success test. -/
theorem process_files_body_eq (corpus : List (Option Page)) (n : Nat) (opg : Option Page)
    (hc : corpus[n]? = some opg) :
    (match opg with
     | none => 0
     | some pg =>
       if pg.shapes.isEmpty then 0
       else
         match Collector.find_toke_munka_subtitle pg.shapes with
         | none => 0
         | some marker =>
           if py_strip (Collector.collect_column_content n marker corpus) = "" then 0 else 1) =
      (if Collector.page_success corpus n then 1 else 0) := by
  unfold Collector.page_success
  rw [hc]
  cases opg with
  | none => rfl
  | some pg =>
    by_cases hemp : pg.shapes.isEmpty
    · simp [hemp]
    · simp only [hemp, Bool.false_eq_true, if_false, Bool.not_false, Bool.true_and]
      cases hm : Collector.find_toke_munka_subtitle pg.shapes with
      | none => rfl
      | some marker =>
        by_cases hs : py_strip (Collector.collect_column_content n marker corpus) = ""
        · simp [hs]
        · simp [hs]

/-- The `process_files` loop counts exactly the successful pages from `n`
on. -/
theorem process_files_go_count (corpus : List (Option Page)) :
    ∀ (pages : List (Option Page)) (n : Nat), pages = corpus.drop n →
      Collector.process_files_go corpus n pages =
        (List.range pages.length).countP (fun k => Collector.page_success corpus (n + k)) := by
  intro pages
  induction pages with
  | nil => intro n _; rfl
  | cons opg rest ih =>
    intro n hpag
    have hc : corpus[n]? = some opg := by
      have h0 : (corpus.drop n)[0]? = corpus[n + 0]? := List.getElem?_drop corpus n 0
      rw [← hpag] at h0
      simpa using h0.symm
    have hrest : rest = corpus.drop (n + 1) := by
      have := congrArg List.tail hpag
      simpa [List.tail_drop] using this
    have hmain : Collector.process_files_go corpus n (opg :: rest) =
        (if Collector.page_success corpus n then 1 else 0) +
          Collector.process_files_go corpus (n + 1) rest := by
      cases opg with
      | none =>
        rw [← process_files_body_eq corpus n none hc]
        rfl
      | some pg =>
        rw [← process_files_body_eq corpus n (some pg) hc]
        rfl
    rw [hmain, ih (n + 1) hrest]
    rw [List.length_cons, List.range_succ_eq_map, List.countP_cons, List.countP_map]
    have hshift : (List.range rest.length).countP
        ((fun k => Collector.page_success corpus (n + k)) ∘ Nat.succ) =
        (List.range rest.length).countP (fun k => Collector.page_success corpus (n + 1 + k)) := by
      apply List.countP_congr
      intro k _
      show Collector.page_success corpus (n + (k + 1)) = true ↔
        Collector.page_success corpus (n + 1 + k) = true
      have harith : n + (k + 1) = n + 1 + k := by omega
      rw [harith]
    rw [hshift]
    simp [Nat.add_comm]

/-- **C9.** Per-page failures are local and non-propagating: (i) replacing
every unloadable page with an empty loaded page changes neither the stop
search nor the collected span content — a failed page is simply skipped and
traversal continues with the next page; (ii) the corpus-level `process_files`
always completes, returning exactly the count of pages whose per-page
processing (marker found, non-blank span collected) succeeds. -/
theorem per_page_failures_local (corpus : List (Option Page)) :
    (∀ (cur : Nat) (c r : Int),
      Collector.get_next_stopping_point cur c r (Collector.mask_failures corpus) =
        Collector.get_next_stopping_point cur c r corpus) ∧
    (∀ (startIdx : Nat) (startShape : Shape),
      Collector.collect_column_content startIdx startShape (Collector.mask_failures corpus) =
        Collector.collect_column_content startIdx startShape corpus) ∧
    Collector.process_files corpus =
      (List.range corpus.length).countP (fun i => Collector.page_success corpus i) := by
  refine ⟨?_, ?_, ?_⟩
  · intro cur c r
    exact gnsp_mask cur c r corpus
  · intro startIdx startShape
    exact collect_column_content_mask startIdx startShape corpus
  · unfold Collector.process_files
    rw [process_files_go_count corpus corpus 0 (by rw [List.drop_zero])]
    apply List.countP_congr
    intro k _
    have : 0 + k = k := by omega
    rw [this]

/-! ## C1: the collection pass -/

/-- Pages past the stop page contribute nothing to the specification-side
collection. -/
theorem spec_collect_frags_after_stop (startIdx : Nat) (c r : Int) (sf : Nat) (sc sr : Int) :
    ∀ (pages : List (Option Page)) (n : Nat), sf < n →
      Collector.spec_collect_frags startIdx c r (some (sf, sc, sr)) n pages = [] := by
  intro pages
  induction pages with
  | nil => intro n _; rfl
  | cons opg rest ih =>
    intro n hn
    cases opg with
    | none =>
      show Collector.spec_collect_frags startIdx c r (some (sf, sc, sr)) (n + 1) rest = []
      exact ih (n + 1) (by omega)
    | some pg =>
      show ((Collector.collect_scan_shapes pg.shapes).filter _).filterMap Collector.tagged_text ++
          Collector.spec_collect_frags startIdx c r (some (sf, sc, sr)) (n + 1) rest = []
      rw [ih (n + 1) (by omega), List.append_nil]
      have hnil : (Collector.collect_scan_shapes pg.shapes).filter
          (fun s => Collector.strictly_after_start startIdx c r n s &&
            Collector.strictly_before_stop (some (sf, sc, sr)) n s) = [] := by
        apply List.filter_eq_nil_iff.mpr
        intro s _
        unfold Collector.strictly_before_stop
        simp only [Bool.and_eq_true, not_and]
        intro _
        simp only [Bool.or_eq_true, Bool.and_eq_true, decide_eq_true_eq]
        omega
      rw [hnil]
      rfl

/-- Pages before the start page contribute nothing to the specification-side
collection. -/
theorem spec_collect_frags_skip (startIdx : Nat) (c r : Int)
    (ostop : Option (Nat × Int × Int)) :
    ∀ (pages : List (Option Page)) (n : Nat), n ≤ startIdx →
      Collector.spec_collect_frags startIdx c r ostop n pages =
        Collector.spec_collect_frags startIdx c r ostop startIdx
          (pages.drop (startIdx - n)) := by
  intro pages
  induction pages with
  | nil =>
    intro n _
    rw [List.drop_nil]
    rfl
  | cons opg rest ih =>
    intro n hn
    rcases Nat.eq_or_lt_of_le hn with heq | hlt
    · rw [heq, Nat.sub_self, List.drop_zero]
    · have hstep : Collector.spec_collect_frags startIdx c r ostop n (opg :: rest) =
          Collector.spec_collect_frags startIdx c r ostop (n + 1) rest := by
        cases opg with
        | none => rfl
        | some pg =>
          show ((Collector.collect_scan_shapes pg.shapes).filter _).filterMap
              Collector.tagged_text ++ _ = _
          have hnil : (Collector.collect_scan_shapes pg.shapes).filter
              (fun s => Collector.strictly_after_start startIdx c r n s &&
                Collector.strictly_before_stop ostop n s) = [] := by
            apply List.filter_eq_nil_iff.mpr
            intro s _
            unfold Collector.strictly_after_start
            simp only [Bool.and_eq_true, not_and]
            intro hco
            exfalso
            rcases Bool.or_eq_true_iff.1 hco with h1 | h1
            · have := of_decide_eq_true h1
              omega
            · have := of_decide_eq_true (Bool.and_eq_true_iff.1 h1).1
              omega
          rw [hnil]
          rfl
      rw [hstep, ih (n + 1) hlt]
      have hdrop : (opg :: rest).drop (startIdx - n) = rest.drop (startIdx - (n + 1)) := by
        have h1 : startIdx - n = (startIdx - (n + 1)) + 1 := by omega
        rw [h1, List.drop_succ_cons]
      rw [hdrop]

/-- On a page strictly before the stop page (or with no stop recorded), the
collection inner loop collects exactly the tagged texts of the scan shapes
strictly after the start. -/
theorem collect_page_go_no_stop (startIdx : Nat) (c r : Int)
    (ostop : Option (Nat × Int × Int)) (i : Nat) (hi : startIdx ≤ i)
    (hno : ∀ sf sc sr, ostop = some (sf, sc, sr) → i < sf) :
    ∀ es : List Shape, Collector.collect_page_go startIdx c r ostop i es =
      (es.filter (fun s => Collector.strictly_after_start startIdx c r i s &&
        Collector.strictly_before_stop ostop i s)).filterMap Collector.tagged_text := by
  intro es
  induction es with
  | nil => rfl
  | cons s rest ih =>
    have hmatch : Collector.stop_matches ostop i s = false := by
      cases hso : ostop with
      | none => rfl
      | some st =>
        have hlt := hno st.1 st.2.1 st.2.2 (by rw [hso])
        have hne : ¬ (i = st.1) := by omega
        unfold Collector.stop_matches
        simp [hne]
    have hbefore : Collector.strictly_before_stop ostop i s = true := by
      cases hso : ostop with
      | none => rfl
      | some st =>
        have hlt := hno st.1 st.2.1 st.2.2 (by rw [hso])
        unfold Collector.strictly_before_stop
        simp [hlt]
    by_cases hskip : (decide (i = startIdx) && !(Collector.after_start c r s)) = true
    · have hafter : Collector.strictly_after_start startIdx c r i s = false := by
        rcases Bool.and_eq_true_iff.1 hskip with ⟨h1, h2⟩
        have hi2 : i = startIdx := of_decide_eq_true h1
        have haf : Collector.after_start c r s = false := by simpa using h2
        unfold Collector.strictly_after_start
        rw [hi2, haf]
        simp
      show (if (decide (i = startIdx) && !(Collector.after_start c r s)) = true then
          Collector.collect_page_go startIdx c r ostop i rest
        else if Collector.stop_matches ostop i s = true then []
        else match Collector.tagged_text s with
          | some f => f :: Collector.collect_page_go startIdx c r ostop i rest
          | none => Collector.collect_page_go startIdx c r ostop i rest) = _
      rw [if_pos hskip, List.filter_cons, hafter]
      simp only [Bool.false_and, Bool.false_eq_true, if_false]
      exact ih
    · have hafter : Collector.strictly_after_start startIdx c r i s = true := by
        unfold Collector.strictly_after_start
        rcases Nat.eq_or_lt_of_le hi with heq | hlt2
        · have haf : Collector.after_start c r s = true := by
            by_contra hfa
            have haf0 : Collector.after_start c r s = false := by simpa using hfa
            apply hskip
            simp [heq.symm, haf0]
          rw [← heq, haf]
          simp
        · simp [hlt2]
      show (if (decide (i = startIdx) && !(Collector.after_start c r s)) = true then
          Collector.collect_page_go startIdx c r ostop i rest
        else if Collector.stop_matches ostop i s = true then []
        else match Collector.tagged_text s with
          | some f => f :: Collector.collect_page_go startIdx c r ostop i rest
          | none => Collector.collect_page_go startIdx c r ostop i rest) = _
      rw [if_neg hskip, hmatch, List.filter_cons, hafter, hbefore]
      simp only [Bool.and_self, if_true, Bool.false_eq_true, if_false]
      rw [List.filterMap_cons]
      cases ht : Collector.tagged_text s with
      | none =>
        simp only [ht]
        exact ih
      | some f =>
        simp only [ht]
        rw [ih]

/-- On the stop page, provided the page's (sorted) collection scan contains
an element at exactly the stop coordinates, the inner loop's break at the
stop position collects exactly the tagged texts of elements strictly after
the start and strictly before the stop. -/
theorem collect_page_go_stop_page (startIdx : Nat) (c r : Int) (sf : Nat) (sc sr : Int)
    (hi : startIdx ≤ sf) :
    ∀ es : List Shape, List.Pairwise pos_le es →
      (∃ e0 ∈ es, colD e0 = sc ∧ rowD e0 = sr ∧
        Collector.strictly_after_start startIdx c r sf e0 = true) →
      Collector.collect_page_go startIdx c r (some (sf, sc, sr)) sf es =
        (es.filter (fun s => Collector.strictly_after_start startIdx c r sf s &&
          Collector.strictly_before_stop (some (sf, sc, sr)) sf s)).filterMap
          Collector.tagged_text := by
  intro es
  induction es with
  | nil => intro _ _; rfl
  | cons s rest ih =>
    intro hpw hex
    obtain ⟨e0, he0mem, he0c, he0r, he0after⟩ := hex
    by_cases hskip : (decide (sf = startIdx) && !(Collector.after_start c r s)) = true
    · have hafter : Collector.strictly_after_start startIdx c r sf s = false := by
        rcases Bool.and_eq_true_iff.1 hskip with ⟨h1, h2⟩
        have hi2 : sf = startIdx := of_decide_eq_true h1
        have haf : Collector.after_start c r s = false := by simpa using h2
        unfold Collector.strictly_after_start
        rw [hi2, haf]
        simp
      have he0rest : e0 ∈ rest := by
        rcases List.mem_cons.1 he0mem with rfl | h
        · rw [he0after] at hafter
          exact absurd hafter (by simp)
        · exact h
      show (if (decide (sf = startIdx) && !(Collector.after_start c r s)) = true then
          Collector.collect_page_go startIdx c r (some (sf, sc, sr)) sf rest
        else if Collector.stop_matches (some (sf, sc, sr)) sf s = true then []
        else match Collector.tagged_text s with
          | some f => f :: Collector.collect_page_go startIdx c r (some (sf, sc, sr)) sf rest
          | none => Collector.collect_page_go startIdx c r (some (sf, sc, sr)) sf rest) = _
      rw [if_pos hskip, List.filter_cons, hafter]
      simp only [Bool.false_and, Bool.false_eq_true, if_false]
      exact ih hpw.of_cons ⟨e0, he0rest, he0c, he0r, he0after⟩
    · by_cases hstopm : Collector.stop_matches (some (sf, sc, sr)) sf s = true
      · have hcs : colD s = sc ∧ rowD s = sr := by
          unfold Collector.stop_matches at hstopm
          simp only [Bool.and_eq_true, decide_eq_true_eq] at hstopm
          exact ⟨hstopm.1.2, hstopm.2⟩
        have hbef : Collector.strictly_before_stop (some (sf, sc, sr)) sf s = false := by
          unfold Collector.strictly_before_stop
          simp [hcs.1, hcs.2]
        show (if (decide (sf = startIdx) && !(Collector.after_start c r s)) = true then
            Collector.collect_page_go startIdx c r (some (sf, sc, sr)) sf rest
          else if Collector.stop_matches (some (sf, sc, sr)) sf s = true then []
          else match Collector.tagged_text s with
            | some f => f :: Collector.collect_page_go startIdx c r (some (sf, sc, sr)) sf rest
            | none => Collector.collect_page_go startIdx c r (some (sf, sc, sr)) sf rest) = _
        rw [if_neg hskip, if_pos hstopm, List.filter_cons, hbef]
        simp only [Bool.and_false, Bool.false_eq_true, if_false]
        have hnil : rest.filter (fun t => Collector.strictly_after_start startIdx c r sf t &&
            Collector.strictly_before_stop (some (sf, sc, sr)) sf t) = [] := by
          apply List.filter_eq_nil_iff.mpr
          intro t ht
          have hrel : pos_le s t := List.rel_of_pairwise_cons hpw ht
          unfold pos_le at hrel
          simp only [Bool.and_eq_true, not_and]
          intro _
          unfold Collector.strictly_before_stop
          simp only [Bool.or_eq_true, Bool.and_eq_true, decide_eq_true_eq]
          push_neg
          constructor
          · omega
          · intro _
            constructor
            · omega
            · intro hct
              omega
        rw [hnil]
        rfl
      · have hkey : ¬(colD s = sc ∧ rowD s = sr) := by
          intro hk
          apply hstopm
          unfold Collector.stop_matches
          simp [hk.1, hk.2]
        have he0rest : e0 ∈ rest := by
          rcases List.mem_cons.1 he0mem with rfl | h
          · exact absurd ⟨he0c, he0r⟩ hkey
          · exact h
        have hrel : pos_le s e0 := List.rel_of_pairwise_cons hpw he0rest
        have hlex : colD s < sc ∨ (colD s = sc ∧ rowD s < sr) := by
          unfold pos_le at hrel
          rw [he0c, he0r] at hrel
          rcases hrel with h | ⟨h1, h2⟩
          · exact Or.inl h
          · rcases lt_or_eq_of_le h2 with h3 | h3
            · exact Or.inr ⟨h1, h3⟩
            · exact absurd ⟨h1, h3⟩ hkey
        have hbef : Collector.strictly_before_stop (some (sf, sc, sr)) sf s = true := by
          unfold Collector.strictly_before_stop
          simp only [Bool.or_eq_true, Bool.and_eq_true, decide_eq_true_eq]
          rcases hlex with h | ⟨h1, h2⟩
          · exact Or.inr ⟨trivial, Or.inl h⟩
          · exact Or.inr ⟨trivial, Or.inr ⟨h1, h2⟩⟩
        have hafter : Collector.strictly_after_start startIdx c r sf s = true := by
          unfold Collector.strictly_after_start
          rcases Nat.eq_or_lt_of_le hi with heq | hlt2
          · have haf : Collector.after_start c r s = true := by
              by_contra hfa
              have haf0 : Collector.after_start c r s = false := by simpa using hfa
              apply hskip
              simp [heq.symm, haf0]
            rw [← heq, haf]
            simp
          · simp [hlt2]
        show (if (decide (sf = startIdx) && !(Collector.after_start c r s)) = true then
            Collector.collect_page_go startIdx c r (some (sf, sc, sr)) sf rest
          else if Collector.stop_matches (some (sf, sc, sr)) sf s = true then []
          else match Collector.tagged_text s with
            | some f => f :: Collector.collect_page_go startIdx c r (some (sf, sc, sr)) sf rest
            | none => Collector.collect_page_go startIdx c r (some (sf, sc, sr)) sf rest) = _
        rw [if_neg hskip, if_neg hstopm, List.filter_cons, hafter, hbef]
        simp only [Bool.and_self, if_true]
        rw [List.filterMap_cons]
        cases ht : Collector.tagged_text s with
        | none =>
          simp only [ht]
          exact ih hpw.of_cons ⟨e0, he0rest, he0c, he0r, he0after⟩
        | some f =>
          simp only [ht]
          rw [ih hpw.of_cons ⟨e0, he0rest, he0c, he0r, he0after⟩]

/-- The collection pass over the pages from `n` on equals the
specification-side collection, given that a recorded stop page is at or
after `n`, loads, and holds a collection-scan element at exactly the stop
coordinates which is strictly after the start. -/
theorem collect_files_go_eq_spec (startIdx : Nat) (c r : Int)
    (corpus : List (Option Page)) (ostop : Option (Nat × Int × Int))
    (hostop : ∀ sf sc sr, ostop = some (sf, sc, sr) →
      startIdx ≤ sf ∧ ∃ pg e, corpus[sf]? = some (some pg) ∧
        e ∈ Collector.collect_scan_shapes pg.shapes ∧ colD e = sc ∧ rowD e = sr ∧
        Collector.strictly_after_start startIdx c r sf e = true) :
    ∀ (pages : List (Option Page)) (n : Nat), startIdx ≤ n → pages = corpus.drop n →
      (∀ sf sc sr, ostop = some (sf, sc, sr) → n ≤ sf) →
      Collector.collect_files_go startIdx c r ostop n pages =
        Collector.spec_collect_frags startIdx c r ostop n pages := by
  intro pages
  induction pages with
  | nil => intro n _ _ _; rfl
  | cons opg rest ih =>
    intro n hsn hpag hnsf
    have hc : corpus[n]? = some opg := by
      have h0 : (corpus.drop n)[0]? = corpus[n + 0]? := List.getElem?_drop corpus n 0
      rw [← hpag] at h0
      simpa using h0.symm
    have hrest : rest = corpus.drop (n + 1) := by
      have := congrArg List.tail hpag
      simpa [List.tail_drop] using this
    cases opg with
    | none =>
      have hlhs : Collector.collect_files_go startIdx c r ostop n (none :: rest) =
          Collector.collect_files_go startIdx c r ostop (n + 1) rest := rfl
      have hrhs : Collector.spec_collect_frags startIdx c r ostop n (none :: rest) =
          Collector.spec_collect_frags startIdx c r ostop (n + 1) rest := rfl
      rw [hlhs, hrhs]
      apply ih (n + 1) (by omega) hrest
      intro sf sc sr hso
      have hn := hnsf sf sc sr hso
      rcases Nat.eq_or_lt_of_le hn with heq | hlt
      · exfalso
        rcases hostop sf sc sr hso with ⟨_, pg, e, hload, _⟩
        rw [← heq] at hload
        rw [hc] at hload
        exact Option.noConfusion (Option.some.inj hload)
      · omega
    | some pg =>
      have hstep : Collector.collect_files_go startIdx c r ostop n (some pg :: rest) =
          (if Collector.should_break ostop n = true then
            Collector.collect_page_go startIdx c r ostop n
              (Collector.collect_scan_shapes pg.shapes)
          else Collector.collect_page_go startIdx c r ostop n
              (Collector.collect_scan_shapes pg.shapes) ++
            Collector.collect_files_go startIdx c r ostop (n + 1) rest) := rfl
      have hspec : Collector.spec_collect_frags startIdx c r ostop n (some pg :: rest) =
          ((Collector.collect_scan_shapes pg.shapes).filter (fun s =>
            Collector.strictly_after_start startIdx c r n s &&
            Collector.strictly_before_stop ostop n s)).filterMap Collector.tagged_text ++
          Collector.spec_collect_frags startIdx c r ostop (n + 1) rest := rfl
      rw [hstep, hspec]
      cases hso : ostop with
      | none =>
        subst hso
        have hbr : Collector.should_break (none : Option (Nat × Int × Int)) n = false := rfl
        rw [hbr]
        simp only [Bool.false_eq_true, if_false]
        rw [collect_page_go_no_stop startIdx c r none n hsn (by intro sf sc sr h; simp at h)]
        congr 1
        apply ih (n + 1) (by omega) hrest
        intro sf sc sr h
        simp at h
      | some st =>
        subst hso
        obtain ⟨sf, sc, sr⟩ := st
        have hn := hnsf sf sc sr rfl
        rcases Nat.eq_or_lt_of_le hn with heq | hlt
        · -- n = sf : the stop page
          rcases hostop sf sc sr rfl with ⟨hssf, pg2, e, hload, hemem, hec, her, heafter⟩
          have hpg : pg2 = pg := by
            rw [← heq] at hload
            rw [hc] at hload
            exact (Option.some.inj (Option.some.inj hload)).symm
          rw [hpg] at hemem
          have hbr : Collector.should_break (some (sf, sc, sr)) n = true := by
            unfold Collector.should_break
            simp [heq]
          rw [hbr]
          simp only [if_true]
          subst heq
          rw [collect_page_go_stop_page startIdx c r n sc sr hsn
            (Collector.collect_scan_shapes pg.shapes)
            (List.sorted_insertionSort pos_le _)
            ⟨e, hemem, hec, her, heafter⟩]
          have hafterstop : Collector.spec_collect_frags startIdx c r
              (some (n, sc, sr)) (n + 1) rest = [] :=
            spec_collect_frags_after_stop startIdx c r n sc sr rest (n + 1) (by omega)
          rw [hafterstop, List.append_nil]
        · -- n < sf
          have hbr : Collector.should_break (some (sf, sc, sr)) n = false := by
            unfold Collector.should_break
            simp only [decide_eq_true_eq]
            simp
            omega
          rw [hbr]
          simp only [Bool.false_eq_true, if_false]
          rw [collect_page_go_no_stop startIdx c r (some (sf, sc, sr)) n hsn
            (by intro sf2 sc2 sr2 h2; injection h2 with h3; injection h3 with h4 h5; omega)]
          congr 1
          apply ih (n + 1) (by omega) hrest
          intro sf2 sc2 sr2 h2
          injection h2 with h3
          injection h3 with h4 h5
          omega

/-- `strictly_after_start` depends on a shape only through its
`(column, row)` key. -/
theorem strictly_after_start_key (startIdx : Nat) (c r : Int) (i : Nat) (s t : Shape)
    (h1 : colD s = colD t) (h2 : rowD s = rowD t) :
    Collector.strictly_after_start startIdx c r i s =
      Collector.strictly_after_start startIdx c r i t := by
  unfold Collector.strictly_after_start Collector.after_start
  rw [h1, h2]

/-- C1 (corrected).  For a start marker carrying column `c` and row `r`,
the Span Collector's content equals the `"\n\n"`-joined concatenation, in
scan order, of the tagged extractable texts of the collection-scan shapes
strictly after the starting position and strictly before the recorded stop
position (running to corpus end when none is recorded) — PROVIDED that any
recorded stop position coincides with the `(column, row)` key of some
collection-scan shape of the stop page.  Without that proviso the claim
fails: when the stop element is a `szeles_cim` (absent from the collection
scan), the code's inner loop never hits its exact-position break and the
stop page's remaining shapes are collected (see the counterexample). -/
theorem collect_column_content_spec (startIdx : Nat) (startShape : Shape)
    (corpus : List (Option Page)) (c r : Int)
    (hc : startShape.column_number = some c)
    (hr : startShape.row_number = some r)
    (hstop : ∀ sf sc sr,
      Collector.get_next_stopping_point startIdx c r corpus = some (sf, sc, sr) →
      ∃ pg e, corpus[sf]? = some (some pg) ∧
        e ∈ Collector.collect_scan_shapes pg.shapes ∧ colD e = sc ∧ rowD e = sr) :
    Collector.collect_column_content startIdx startShape corpus =
      String.intercalate "\n\n"
        (Collector.spec_collected startIdx c r
          (Collector.get_next_stopping_point startIdx c r corpus) corpus) := by
  unfold Collector.collect_column_content
  rw [hc, hr]
  dsimp only
  congr 1
  have hskip := spec_collect_frags_skip startIdx c r
    (Collector.get_next_stopping_point startIdx c r corpus) corpus 0 (Nat.zero_le _)
  unfold Collector.spec_collected
  rw [hskip, Nat.sub_zero]
  apply collect_files_go_eq_spec startIdx c r corpus
    (Collector.get_next_stopping_point startIdx c r corpus)
    ?_ (corpus.drop startIdx) startIdx (Nat.le_refl _) rfl
    (fun sf sc sr hso => (gnsp_some_facts startIdx c r corpus sf sc sr hso).1)
  intro sf sc sr hso
  rcases gnsp_some_facts startIdx c r corpus sf sc sr hso with
    ⟨hle, pg1, e1, hload1, _hmem1, hafter1, hec1, her1⟩
  rcases hstop sf sc sr hso with ⟨pg2, e2, hload2, hmem2, hec2, her2⟩
  have hpg : pg1 = pg2 := by
    rw [hload1] at hload2
    exact Option.some.inj (Option.some.inj hload2)
  refine ⟨hle, pg2, e2, hload2, hmem2, hec2, her2, ?_⟩
  rw [strictly_after_start_key startIdx c r sf e2 e1 (by rw [hec2, hec1])
    (by rw [her2, her1])]
  exact hafter1

/-- C1 counterexample.  On `c1_corpus` the recorded stop is the
`szeles_cim` at position `(0, 1, 2)`, the claim expects nothing to be
collected (the `szoveg` at `(1, 3)` lies at-or-after the stop), yet the
code collects its text `"X"`: the inner loop only breaks on an exact
`(column, row)` match against the stop position, and the `szeles_cim` is
absent from the collection scan. -/
theorem collect_column_content_counterexample :
    Collector.get_next_stopping_point 0 1 1 c1_corpus = some (0, 1, 2) ∧
    Collector.collect_column_content 0 c1_marker c1_corpus = "X" ∧
    Collector.spec_collected 0 1 1 (some (0, 1, 2)) c1_corpus = [] := by
  refine ⟨by decide, ?_, by decide⟩
  rfl

/-- C1 witness: on `c1w_corpus` the stop element is a non-matching
`hasabkozi_cim`, which the collection scan also contains, so the amended
claim applies. -/
theorem collect_column_content_spec_witness :
    Collector.collect_column_content 0 c1_marker c1w_corpus =
      String.intercalate "\n\n"
        (Collector.spec_collected 0 1 1
          (Collector.get_next_stopping_point 0 1 1 c1w_corpus) c1w_corpus) :=
  collect_column_content_spec 0 c1_marker c1w_corpus 1 1 rfl rfl
    (by
      intro sf sc sr hso
      have hg : Collector.get_next_stopping_point 0 1 1 c1w_corpus = some (0, 1, 3) := by
        decide
      rw [hg] at hso
      injection hso with h1
      injection h1 with hsf h2
      injection h2 with hsc hsr
      subst hsf; subst hsc; subst hsr
      exact ⟨c1w_page, c1w_stop, rfl, by decide, rfl, rfl⟩)
